import Mathlib

/-!
# WarBoard server core — shallow embedding and verification

This file embeds the authoritative room-event processor of the WarBoard
server (`src/server/rooms.py`, with the data model of `src/server/models.py`
and the websocket dispatch decision of `src/server/app.py`) into Lean, and
proves or refutes the frozen specification claims about it.

Modelling conventions:
* Python floats are modelled as exact rationals (`ℚ`); the geometric tests of
  the eraser are translated with exact arithmetic.  The one use of `math.hypot`
  (the `circle` shape hit test) compares `√d2 ≤ √R2 + r`; this comparison is
  decided exactly over `ℚ` by `sqrtLeSqrtAdd` below, which is proved equivalent
  to the real-number comparison.
* JSON payload values (`Dict[str, Any]`) are modelled by the inductive `JVal`.
  Python truthiness, `dict.get`, and `float(...)` coercion are modelled
  faithfully; `float` applied to a numeric *string* (a coercion Python would
  accept) is modelled as a failure, so the model covers payloads whose numbers
  arrive as JSON numbers or booleans.
* Python dictionaries are insertion-ordered; they are modelled as association
  lists where assignment updates an existing key in place and otherwise
  appends, exactly as CPython does.
* `pydantic` validation failures and `float(...)`/`in` type errors raise in
  Python; the embedded `applyEvent` returns the (possibly partially mutated,
  as in Python) room together with `Except.error` in that case.
* History snapshots are `model_dump_json`/`model_validate_json` round trips of
  `RoomState`; the embedding stores the states themselves, since the JSON
  round trip is the identity on states.
-/

namespace WarBoard

/-- A JSON-like runtime value, modelling the `Any`-typed payload entries. -/
inductive JVal where
  | null : JVal
  | bool (b : Bool) : JVal
  | num (q : ℚ) : JVal
  | str (s : String) : JVal
  | arr (l : List JVal) : JVal
  | obj (l : List (String × JVal)) : JVal
deriving Repr

mutual

def JVal.beq : JVal → JVal → Bool
  | .null, .null => true
  | .bool a, .bool b => a == b
  | .num a, .num b => a == b
  | .str a, .str b => a == b
  | .arr a, .arr b => JVal.beqList a b
  | .obj a, .obj b => JVal.beqObj a b
  | _, _ => false

def JVal.beqList : List JVal → List JVal → Bool
  | [], [] => true
  | a :: as, b :: bs => JVal.beq a b && JVal.beqList as bs
  | _, _ => false

def JVal.beqObj : List (String × JVal) → List (String × JVal) → Bool
  | [], [] => true
  | (ka, va) :: as, (kb, vb) :: bs => ka == kb && JVal.beq va vb && JVal.beqObj as bs
  | _, _ => false

end

mutual

theorem JVal.beq_eq : ∀ a b : JVal, JVal.beq a b = true → a = b
  | .null, .null, _ => rfl
  | .bool a, .bool b, h => by simpa [JVal.beq] using congrArg JVal.bool (by simpa [JVal.beq] using h)
  | .num a, .num b, h => by
      have : a = b := by simpa [JVal.beq] using h
      rw [this]
  | .str a, .str b, h => by
      have : a = b := by simpa [JVal.beq] using h
      rw [this]
  | .arr a, .arr b, h => by
      have : a = b := JVal.beqList_eq a b (by simpa [JVal.beq] using h)
      rw [this]
  | .obj a, .obj b, h => by
      have : a = b := JVal.beqObj_eq a b (by simpa [JVal.beq] using h)
      rw [this]

theorem JVal.beqList_eq : ∀ a b : List JVal, JVal.beqList a b = true → a = b
  | [], [], _ => rfl
  | a :: as, b :: bs, h => by
      have h' := h
      simp only [JVal.beqList, Bool.and_eq_true] at h'
      have h1 : a = b := JVal.beq_eq a b h'.1
      have h2 : as = bs := JVal.beqList_eq as bs h'.2
      rw [h1, h2]

theorem JVal.beqObj_eq : ∀ a b : List (String × JVal), JVal.beqObj a b = true → a = b
  | [], [], _ => rfl
  | (ka, va) :: as, (kb, vb) :: bs, h => by
      have h' := h
      simp only [JVal.beqObj, Bool.and_eq_true] at h'
      have h1 : ka = kb := by simpa using h'.1.1
      have h2 : va = vb := JVal.beq_eq va vb h'.1.2
      have h3 : as = bs := JVal.beqObj_eq as bs h'.2
      rw [h1, h2, h3]

end

mutual

theorem JVal.beq_refl : ∀ a : JVal, JVal.beq a a = true
  | .null => rfl
  | .bool a => by simp [JVal.beq]
  | .num a => by simp [JVal.beq]
  | .str a => by simp [JVal.beq]
  | .arr a => by simpa [JVal.beq] using JVal.beqList_refl a
  | .obj a => by simpa [JVal.beq] using JVal.beqObj_refl a

theorem JVal.beqList_refl : ∀ a : List JVal, JVal.beqList a a = true
  | [] => rfl
  | a :: as => by
      simp only [JVal.beqList, Bool.and_eq_true]
      exact ⟨JVal.beq_refl a, JVal.beqList_refl as⟩

theorem JVal.beqObj_refl : ∀ a : List (String × JVal), JVal.beqObj a a = true
  | [] => rfl
  | (k, v) :: as => by
      simp only [JVal.beqObj, Bool.and_eq_true]
      exact ⟨⟨by simp, JVal.beq_refl v⟩, JVal.beqObj_refl as⟩

end

instance : DecidableEq JVal := fun a b =>
  if h : JVal.beq a b = true then
    .isTrue (JVal.beq_eq a b h)
  else
    .isFalse (fun he => h (he ▸ JVal.beq_refl a))

/-- Python truthiness (`bool(v)` / `if v:`) on payload values. -/
def truthy : JVal → Bool
  | .null => false
  | .bool b => b
  | .num q => q ≠ 0
  | .str s => s ≠ ""
  | .arr l => !l.isEmpty
  | .obj l => !l.isEmpty

/-- `payload.get(k)` — `JVal.null` models Python's `None` for a missing key. -/
def pget (p : List (String × JVal)) (k : String) : JVal :=
  match p.find? (fun kv => kv.1 = k) with
  | some kv => kv.2
  | none => .null

/-- `payload.get(k, d)` with an explicit default. -/
def pgetD (p : List (String × JVal)) (k : String) (d : JVal) : JVal :=
  match p.find? (fun kv => kv.1 = k) with
  | some kv => kv.2
  | none => d

/-- `k in payload` membership test. -/
def hasKey (p : List (String × JVal)) (k : String) : Bool :=
  p.any (fun kv => kv.1 = k)

/-- Python `float(v)`: numbers pass through, booleans coerce to 0/1, anything
else raises.  (Python would additionally parse numeric strings; such payloads
are outside this model.) -/
def toFloat : JVal → Except String ℚ
  | .num q => .ok q
  | .bool b => .ok (if b then 1 else 0)
  | _ => .error "float() argument is not a number"

/-- A `pydantic` `str` field: only string values validate. -/
def asStr : JVal → Option String
  | .str s => some s
  | _ => none

/-- Python `str(v)` for the truthy values stored into `background_url`.
Non-string reprs are approximate but deterministic. -/
def pyStr : JVal → String
  | .str s => s
  | .num q => toString q
  | .bool b => if b then "True" else "False"
  | .null => "None"
  | .arr _ => "<list>"
  | .obj _ => "<dict>"

/-! ## Association lists with CPython dict semantics -/

/-- `d[k] = v`: replace the value in place if the key exists, else append
(CPython insertion-order semantics). -/
def setA {α : Type} (l : List (String × α)) (k : String) (v : α) : List (String × α) :=
  if l.any (fun kv => kv.1 = k) then
    l.map (fun kv => if kv.1 = k then (k, v) else kv)
  else
    l ++ [(k, v)]

/-- `d.get(k)`. -/
def lookupA {α : Type} (l : List (String × α)) (k : String) : Option α :=
  match l.find? (fun kv => kv.1 = k) with
  | some kv => some kv.2
  | none => none

/-- `d.pop(k, None)`'s effect on the dictionary. -/
def eraseA {α : Type} (l : List (String × α)) (k : String) : List (String × α) :=
  l.filter (fun kv => kv.1 ≠ k)

/-- `d.keys()` in insertion order. -/
def keysA {α : Type} (l : List (String × α)) : List String :=
  l.map (fun kv => kv.1)

/-- Whether a payload value is hashable in Python: lists and dicts are not,
and `dict.get`/`in` raise `TypeError` on them. -/
def hashableJ : JVal → Bool
  | .arr _ => false
  | .obj _ => false
  | _ => true

/-- A dictionary lookup (`d.get(key)`) whose key is an arbitrary payload
value: a string key can match (the dicts of `RoomState` are keyed by `str`),
another hashable value is simply not a key, and an unhashable list/dict key
raises `TypeError`. -/
def lookupJ {α : Type} (l : List (String × α)) (v : JVal) :
    Except String (Option (String × α)) :=
  match v with
  | .str s => .ok ((lookupA l s).map (fun a => (s, a)))
  | .arr _ => .error "unhashable type: list"
  | .obj _ => .error "unhashable type: dict"
  | _ => .ok none

/-! ## Data model (src/server/models.py) -/

/-- `models.Token`. -/
structure Token where
  id : String
  x : ℚ
  y : ℚ
  name : String := "Token"
  color : String := "#ffffff"
  image_url : Option String := none
  size_scale : ℚ := 1
  owner_id : Option String := none
  locked : Bool := false
  badges : List String := []
deriving Repr, DecidableEq

/-- `models.Point`. -/
structure Point where
  x : ℚ
  y : ℚ
deriving Repr, DecidableEq

/-- The `layer` literal `{"map", "draw", "notes"}`. -/
inductive Layer where
  | map | draw | notes
deriving Repr, DecidableEq

/-- `models.Stroke`. -/
structure Stroke where
  id : String
  points : List Point := []
  color : String := "#ffffff"
  width : ℚ := 3
  locked : Bool := false
  layer : Layer := .draw
deriving Repr, DecidableEq

/-- The shape `type` literal `{"rect", "circle", "line"}`. -/
inductive ShapeType where
  | rect | circle | line
deriving Repr, DecidableEq

/-- `models.Shape`. -/
structure Shape where
  id : String
  type : ShapeType
  x1 : ℚ
  y1 : ℚ
  x2 : ℚ
  y2 : ℚ
  color : String := "#ffffff"
  width : ℚ := 3
  fill : Bool := false
  locked : Bool := false
  layer : Layer := .draw
deriving Repr, DecidableEq

/-- `models.RoomState`.  `draw_order` is a dict with exactly the two keys
`"strokes"` and `"shapes"`; the two ordered sequences are modelled as the two
fields `order_strokes` / `order_shapes`. -/
structure RoomState where
  room_id : String
  version : Nat := 0
  gm_id : Option String := none
  gm_user_id : Option Int := none
  allow_players_move : Bool := false
  allow_all_move : Bool := false
  lockdown : Bool := false
  gm_key_hash : Option String := none
  background_mode : String := "solid"
  background_url : Option String := none
  terrain_seed : Int := 1
  terrain_style : String := "grassland"
  layer_visibility : List (String × Bool) :=
    [("grid", true), ("drawings", true), ("shapes", true), ("tokens", true)]
  tokens : List (String × Token) := []
  strokes : List (String × Stroke) := []
  shapes : List (String × Shape) := []
  order_strokes : List String := []
  order_shapes : List String := []
deriving Repr, DecidableEq

/-- The per-room mutable record (`rooms.Room`), restricted to the fields the
event processor touches: the state, the undo/redo journal and the dirty bit.
(Sockets, timestamps and the autosave task are connection-layer state.) -/
structure Room where
  state : RoomState
  history : List RoomState := []
  future : List RoomState := []
  dirty : Bool := false
deriving Repr, DecidableEq

/-! ## Wire events -/

/-- `models.EventType`. -/
inductive EvType where
  | HEARTBEAT | REQ_STATE_SYNC | HELLO | PRESENCE | STATE_SYNC | ROOM_SETTINGS
  | UNDO | REDO
  | TOKEN_CREATE | TOKEN_MOVE | TOKEN_DELETE | TOKEN_RENAME | TOKEN_SET_SIZE
  | TOKEN_ASSIGN | TOKEN_SET_LOCK | TOKEN_BADGE_TOGGLE
  | STROKE_ADD | STROKE_DELETE | STROKE_SET_LOCK | ERASE_AT
  | SHAPE_ADD | SHAPE_DELETE | SHAPE_SET_LOCK
  | ERROR
deriving Repr, DecidableEq

/-- The wire name of an event type (for the unhandled-type error message). -/
def EvType.name : EvType → String
  | .HEARTBEAT => "HEARTBEAT"
  | .REQ_STATE_SYNC => "REQ_STATE_SYNC"
  | .HELLO => "HELLO"
  | .PRESENCE => "PRESENCE"
  | .STATE_SYNC => "STATE_SYNC"
  | .ROOM_SETTINGS => "ROOM_SETTINGS"
  | .UNDO => "UNDO"
  | .REDO => "REDO"
  | .TOKEN_CREATE => "TOKEN_CREATE"
  | .TOKEN_MOVE => "TOKEN_MOVE"
  | .TOKEN_DELETE => "TOKEN_DELETE"
  | .TOKEN_RENAME => "TOKEN_RENAME"
  | .TOKEN_SET_SIZE => "TOKEN_SET_SIZE"
  | .TOKEN_ASSIGN => "TOKEN_ASSIGN"
  | .TOKEN_SET_LOCK => "TOKEN_SET_LOCK"
  | .TOKEN_BADGE_TOGGLE => "TOKEN_BADGE_TOGGLE"
  | .STROKE_ADD => "STROKE_ADD"
  | .STROKE_DELETE => "STROKE_DELETE"
  | .STROKE_SET_LOCK => "STROKE_SET_LOCK"
  | .ERASE_AT => "ERASE_AT"
  | .SHAPE_ADD => "SHAPE_ADD"
  | .SHAPE_DELETE => "SHAPE_DELETE"
  | .SHAPE_SET_LOCK => "SHAPE_SET_LOCK"
  | .ERROR => "ERROR"

/-- `models.WireEvent` (the advisory `client_id`/`ts` metadata is unused by
`apply_event` and omitted). -/
structure WireEvent where
  type : EvType
  payload : List (String × JVal) := []
deriving Repr, DecidableEq

/-- Shorthand for the `ERROR` replies built throughout `apply_event`. -/
def errEv (msg : String) : WireEvent :=
  ⟨.ERROR, [("message", .str msg)]⟩

/-! ## Eraser hit testing (rooms.RoomManager._stroke_hits_circle / _shape_hits_circle) -/

/-- `ERASER_HIT_RADIUS_DEFAULT = 18.0`. -/
def ERASER_HIT_RADIUS_DEFAULT : ℚ := 18

/-- `_stroke_hits_circle`: some point of the stroke lies within the disk. -/
def strokeHitsCircle (stroke : Stroke) (cx cy r : ℚ) : Bool :=
  let rr := r * r
  stroke.points.any (fun pt =>
    let dx := pt.x - cx
    let dy := pt.y - cy
    dx * dx + dy * dy ≤ rr)

/-- Decides `√d2 ≤ √R2 + c` exactly over `ℚ` (for `d2, R2 ≥ 0`), the
comparison `math.hypot(...) <= radius + r` computes with floats.
`sqrtLeSqrtAdd_iff` below proves it equivalent to the real comparison. -/
def sqrtLeSqrtAdd (d2 R2 c : ℚ) : Bool :=
  if 0 ≤ c then
    if d2 - R2 - c * c ≤ 0 then true
    else decide ((d2 - R2 - c * c) * (d2 - R2 - c * c) ≤ 4 * (c * c) * R2)
  else
    if R2 - d2 - c * c < 0 then false
    else decide (4 * (c * c) * d2 ≤ (R2 - d2 - c * c) * (R2 - d2 - c * c))

/-- `_shape_hits_circle`. -/
def shapeHitsCircle (shape : Shape) (cx cy r : ℚ) : Bool :=
  let rr := r * r
  match shape.type with
  | .line =>
      let x1 := shape.x1; let y1 := shape.y1; let x2 := shape.x2; let y2 := shape.y2
      let vx := x2 - x1
      let vy := y2 - y1
      let segLen2 := vx * vx + vy * vy
      if segLen2 = 0 then
        let dx := cx - x1
        let dy := cy - y1
        dx * dx + dy * dy ≤ rr
      else
        let t := ((cx - x1) * vx + (cy - y1) * vy) / segLen2
        let t := max 0 (min 1 t)
        let px := x1 + t * vx
        let py := y1 + t * vy
        let dx := cx - px
        let dy := cy - py
        dx * dx + dy * dy ≤ rr
  | .rect =>
      let minx := min shape.x1 shape.x2
      let maxx := max shape.x1 shape.x2
      let miny := min shape.y1 shape.y2
      let maxy := max shape.y1 shape.y2
      let dx := max (minx - cx) (max 0 (cx - maxx))
      let dy := max (miny - cy) (max 0 (cy - maxy))
      dx * dx + dy * dy ≤ rr
  | .circle =>
      -- radius = hypot(x2-x1, y2-y1); dist = hypot(cx-x1, cy-y1); dist ≤ radius + r
      let R2 := (shape.x2 - shape.x1) * (shape.x2 - shape.x1)
              + (shape.y2 - shape.y1) * (shape.y2 - shape.y1)
      let d2 := (cx - shape.x1) * (cx - shape.x1) + (cy - shape.y1) * (cy - shape.y1)
      sqrtLeSqrtAdd d2 R2 r

/-! ## Permission model (rooms.RoomManager.can_move_token) -/

/-- The GM test used across `apply_event`:
`room.state.gm_id and client_id == room.state.gm_id`.
Note the Python truthiness: a `None` **or empty-string** `gm_id` denies. -/
def isGM (s : RoomState) (client_id : String) : Bool :=
  match s.gm_id with
  | some g => g ≠ "" && client_id = g
  | none => false

/-- `can_move_token`. -/
def canMoveToken (s : RoomState) (client_id : String) (token : Token) : Bool :=
  -- GM can move anything.
  if isGM s client_id then true
  else if s.lockdown then false
  else if token.locked then false
  -- Party mode: anyone can move any unlocked token.
  else if s.allow_all_move then true
  -- Assignment mode.
  else if s.allow_players_move && token.owner_id = some client_id then true
  else false

/-! ## Order normalization (rooms.RoomManager._normalize_order etc.) -/

/-- The loop `for sid in keys: if sid not in acc: acc.append(sid)` — missing
ids appended in key (insertion) order, checked against the growing list. -/
def appendMissing (acc : List String) (keys : List String) : List String :=
  keys.foldl (fun acc k => if k ∈ acc then acc else acc ++ [k]) acc

/-- `_normalize_order`. -/
def normalizeOrder (s : RoomState) : RoomState :=
  let strokes := (s.order_strokes.filter (fun sid => (lookupA s.strokes sid).isSome))
  let shapes := (s.order_shapes.filter (fun sid => (lookupA s.shapes sid).isSome))
  { s with
    order_strokes := appendMissing strokes (keysA s.strokes)
    order_shapes := appendMissing shapes (keysA s.shapes) }

/-- `_append_order(state, "strokes", item_id)`. -/
def appendOrderStrokes (s : RoomState) (item_id : String) : RoomState :=
  let s := normalizeOrder s
  { s with order_strokes := (s.order_strokes.filter (fun x => x ≠ item_id)) ++ [item_id] }

/-- `_append_order(state, "shapes", item_id)`. -/
def appendOrderShapes (s : RoomState) (item_id : String) : RoomState :=
  let s := normalizeOrder s
  { s with order_shapes := (s.order_shapes.filter (fun x => x ≠ item_id)) ++ [item_id] }

/-- `_remove_order(state, "strokes", item_id)`. -/
def removeOrderStrokes (s : RoomState) (item_id : String) : RoomState :=
  { s with order_strokes := s.order_strokes.filter (fun x => x ≠ item_id) }

/-- `_remove_order(state, "shapes", item_id)`. -/
def removeOrderShapes (s : RoomState) (item_id : String) : RoomState :=
  { s with order_shapes := s.order_shapes.filter (fun x => x ≠ item_id) }

/-! ## Journal and dirty mark -/

/-- `_push_history` (call sites always use `clear_future=True`): append a
snapshot of the current state, keep the most recent 50, clear the redo stack. -/
def pushHistory (room : Room) : Room :=
  let h := room.history ++ [room.state]
  let h := if h.length > 50 then h.drop (h.length - 50) else h
  { room with history := h, future := [] }

/-- `_mark_dirty`: sets the dirty bit and increments `version` (the timestamp
and the autosave task are connection-layer effects outside the model). -/
def markDirty (room : Room) : Room :=
  { room with dirty := true, state := { room.state with version := room.state.version + 1 } }

/-! ## Serialization of states into reply payloads (`model_dump`) -/

def layerName : Layer → String
  | .map => "map"
  | .draw => "draw"
  | .notes => "notes"

def shapeTypeName : ShapeType → String
  | .rect => "rect"
  | .circle => "circle"
  | .line => "line"

def optStrJ : Option String → JVal
  | some s => .str s
  | none => .null

def optIntJ : Option Int → JVal
  | some n => .num (n : ℚ)
  | none => .null

def dumpToken (t : Token) : JVal :=
  .obj [("id", .str t.id), ("x", .num t.x), ("y", .num t.y), ("name", .str t.name),
        ("color", .str t.color), ("image_url", optStrJ t.image_url),
        ("size_scale", .num t.size_scale), ("owner_id", optStrJ t.owner_id),
        ("locked", .bool t.locked), ("badges", .arr (t.badges.map .str))]

def dumpPoint (pt : Point) : JVal :=
  .obj [("x", .num pt.x), ("y", .num pt.y)]

def dumpStroke (st : Stroke) : JVal :=
  .obj [("id", .str st.id), ("points", .arr (st.points.map dumpPoint)),
        ("color", .str st.color), ("width", .num st.width),
        ("locked", .bool st.locked), ("layer", .str (layerName st.layer))]

def dumpShapeFields (sh : Shape) : List (String × JVal) :=
  [("id", .str sh.id), ("type", .str (shapeTypeName sh.type)),
   ("x1", .num sh.x1), ("y1", .num sh.y1), ("x2", .num sh.x2), ("y2", .num sh.y2),
   ("color", .str sh.color), ("width", .num sh.width), ("fill", .bool sh.fill),
   ("locked", .bool sh.locked), ("layer", .str (layerName sh.layer))]

/-- `room.state.model_dump(exclude={"gm_key_hash"})`, the `STATE_SYNC` payload. -/
def dumpStateNoKey (s : RoomState) : List (String × JVal) :=
  [("room_id", .str s.room_id),
   ("version", .num (s.version : ℚ)),
   ("gm_id", optStrJ s.gm_id),
   ("gm_user_id", optIntJ s.gm_user_id),
   ("allow_players_move", .bool s.allow_players_move),
   ("allow_all_move", .bool s.allow_all_move),
   ("lockdown", .bool s.lockdown),
   ("background_mode", .str s.background_mode),
   ("background_url", optStrJ s.background_url),
   ("terrain_seed", .num (s.terrain_seed : ℚ)),
   ("terrain_style", .str s.terrain_style),
   ("layer_visibility", .obj (s.layer_visibility.map (fun kv => (kv.1, .bool kv.2)))),
   ("tokens", .obj (s.tokens.map (fun kv => (kv.1, dumpToken kv.2)))),
   ("strokes", .obj (s.strokes.map (fun kv => (kv.1, dumpStroke kv.2)))),
   ("shapes", .obj (s.shapes.map (fun kv => (kv.1, .obj (dumpShapeFields kv.2))))),
   ("draw_order", .obj [("strokes", .arr (s.order_strokes.map .str)),
                        ("shapes", .arr (s.order_shapes.map .str))])]

/-! ## Payload decoding helpers used by `apply_event` -/

/-- The `layer` payload handling: `if layer not in ("map","draw","notes"): layer = "draw"`. -/
def toLayer : JVal → Layer
  | .str "map" => .map
  | .str "draw" => .draw
  | .str "notes" => .notes
  | _ => .draw

def isArr : JVal → Bool
  | .arr _ => true
  | _ => false

def arrElems : JVal → List JVal
  | .arr l => l
  | _ => []

/-- One item of the `STROKE_ADD` points comprehension
`[Point(x=float(pp["x"]), y=float(pp["y"])) for pp in pts if "x" in pp and "y" in pp]`:
`some` = kept, `none` = filtered out, `error` = the Python expression raises
(`in` on a non-container, indexing a str/list with a str, `float` of garbage). -/
def pointOfItem : JVal → Except String (Option Point)
  | .obj l =>
      if hasKey l "x" then
        if hasKey l "y" then do
          let x ← toFloat (pget l "x")
          let y ← toFloat (pget l "y")
          pure (some ⟨x, y⟩)
        else pure none
      else pure none
  | .str s =>
      -- Python's `"x" in s` is a substring test; indexing the str then raises
      if s.toList.contains 'x' then
        if s.toList.contains 'y' then .error "string indices must be integers"
        else pure none
      else pure none
  | .arr l =>
      if l.contains (.str "x") then
        if l.contains (.str "y") then .error "list indices must be integers"
        else pure none
      else pure none
  | _ => .error "argument of type is not iterable"

def buildPoints : List JVal → Except String (List Point)
  | [] => .ok []
  | it :: rest => do
      let h ← pointOfItem it
      let t ← buildPoints rest
      match h with
      | some pt => pure (pt :: t)
      | none => pure t

/-- The `ROOM_SETTINGS` `layer_visibility` merge: update only keys already
present in the state's visibility dict. -/
def updateLV (base : List (String × Bool)) (items : List (String × JVal)) : List (String × Bool) :=
  items.foldl
    (fun acc kv =>
      if acc.any (fun e => e.1 = kv.1) then
        acc.map (fun e => if e.1 = kv.1 then (e.1, truthy kv.2) else e)
      else acc)
    base

/-- The `ROOM_SETTINGS` field updates: each known key present in the payload
overwrites its flag (booleans through truthiness), `background_url` stores
`str(val)` or `None`, and `layer_visibility` merges onto existing keys. -/
def applySettings (s : RoomState) (p : List (String × JVal)) : RoomState :=
  let s := if hasKey p "allow_players_move" then
      { s with allow_players_move := truthy (pget p "allow_players_move") } else s
  let s := if hasKey p "allow_all_move" then
      { s with allow_all_move := truthy (pget p "allow_all_move") } else s
  let s := if hasKey p "lockdown" then
      { s with lockdown := truthy (pget p "lockdown") } else s
  let s := if hasKey p "background_url" then
      (let val := pget p "background_url"
       { s with background_url := if truthy val then some (pyStr val) else none })
    else s
  let s := if hasKey p "layer_visibility" then
      (match pget p "layer_visibility" with
       | .obj items => { s with layer_visibility := updateLV s.layer_visibility items }
       | _ => s)
    else s
  s

/-- The id list a `STROKE_DELETE` payload requests: `p.get("ids")` when it is
a list, else `[p.get("id")]` when that is truthy, else `[]`. -/
def strokeDeleteRequested (p : List (String × JVal)) : List JVal :=
  match pget p "ids" with
  | .arr l => l
  | _ =>
      let sidv := pget p "id"
      if truthy sidv then [sidv] else []

/-- The membership walk of `[sid for sid in ids if sid in room.state.strokes]`,
left to right: a string element is kept when it is a key of `strokes`, another
hashable element is simply not a key, and an unhashable list/dict element makes
the `in` test raise `TypeError` at that point. -/
def existingStrokeIds (strokes : List (String × Stroke)) :
    List JVal → Except String (List String)
  | [] => .ok []
  | .arr _ :: _ => .error "unhashable type: list"
  | .obj _ :: _ => .error "unhashable type: dict"
  | .str sid :: rest =>
      (existingStrokeIds strokes rest).map
        (fun t => if (lookupA strokes sid).isSome then sid :: t else t)
  | _ :: rest => existingStrokeIds strokes rest

/-- `[sid for sid in ids if sid in room.state.strokes]` — the requested ids
that name existing strokes, or the `TypeError` the comprehension raises at its
first unhashable element. -/
def strokeDeleteExisting (s : RoomState) (p : List (String × JVal)) :
    Except String (List String) :=
  existingStrokeIds s.strokes (strokeDeleteRequested p)

/-- The unlocked strokes hit by the eraser disk, in dict iteration order. -/
def eraseHitStrokeIds (s : RoomState) (cx cy r : ℚ) : List String :=
  (s.strokes.filter (fun kv => !kv.2.locked && strokeHitsCircle kv.2 cx cy r)).map
    (fun kv => kv.1)

/-- The unlocked shapes hit by the eraser disk, in dict iteration order. -/
def eraseHitShapeIds (s : RoomState) (cx cy r : ℚ) : List String :=
  (s.shapes.filter (fun kv => !kv.2.locked && shapeHitsCircle kv.2 cx cy r)).map
    (fun kv => kv.1)

/-- Removing a batch of strokes: `pop` + `_remove_order` per id, in order. -/
def removeStrokes (st : RoomState) (ids : List String) : RoomState :=
  ids.foldl (fun st sid => removeOrderStrokes ({ st with strokes := eraseA st.strokes sid }) sid) st

/-- Removing a batch of shapes: `pop` + `_remove_order` per id, in order. -/
def removeShapes (st : RoomState) (ids : List String) : RoomState :=
  ids.foldl (fun st sid => removeOrderShapes ({ st with shapes := eraseA st.shapes sid }) sid) st

/-! ## The event processor (rooms.RoomManager.apply_event) -/

/-- `apply_event`.  Returns the room as left behind by the (in-place, possibly
partial) mutation, together with either the reply `WireEvent` or
`Except.error` when the Python code raises out of the event boundary. -/
def applyEvent (room : Room) (ev : WireEvent) (client_id : String) :
    Room × Except String WireEvent :=
  let p := ev.payload
  match ev.type with
  | .UNDO =>
      if !(isGM room.state client_id) then (room, .ok (errEv "Only GM can undo"))
      else
        match room.history.getLast? with
        | none => (room, .ok (errEv "Nothing to undo"))
        | some prev =>
            let room := { room with future := room.future ++ [room.state],
                                    history := room.history.dropLast }
            let room := markDirty { room with state := normalizeOrder prev }
            (room, .ok ⟨.STATE_SYNC, dumpStateNoKey room.state⟩)
  | .REDO =>
      if !(isGM room.state client_id) then (room, .ok (errEv "Only GM can redo"))
      else
        match room.future.getLast? with
        | none => (room, .ok (errEv "Nothing to redo"))
        | some nxt =>
            let room := { room with history := room.history ++ [room.state],
                                    future := room.future.dropLast }
            let room := markDirty { room with state := normalizeOrder nxt }
            (room, .ok ⟨.STATE_SYNC, dumpStateNoKey room.state⟩)
  | .TOKEN_CREATE =>
      let room := pushHistory room
      let idv := pget p "id"
      match toFloat (pgetD p "x" (.num 0)) with
      | .error e => (room, .error e)
      | .ok xv =>
      match toFloat (pgetD p "y" (.num 0)) with
      | .error e => (room, .error e)
      | .ok yv =>
      let lockedv := truthy (pgetD p "locked" (.bool false))
      match asStr idv, asStr (pgetD p "name" (.str "Token")),
            asStr (pgetD p "color" (.str "#ffffff")) with
      | some tid, some nm, some col =>
          let token : Token :=
            { id := tid, x := xv, y := yv, name := nm, color := col,
              owner_id := none, locked := lockedv }
          let room := markDirty
            { room with state := { room.state with tokens := setA room.state.tokens tid token } }
          (room, .ok ev)  -- echo
      | _, _, _ => (room, .error "Token field validation failed")
  | .TOKEN_MOVE =>
      let idv := pget p "id"
      match lookupJ room.state.tokens idv with
      | .error e => (room, .error e)
      | .ok none => (room, .ok ⟨.ERROR, [("message", .str "Unknown token"), ("id", idv)]⟩)
      | .ok (some (tkey, token)) =>
          if !(canMoveToken room.state client_id token) then
            -- Send authoritative position so clients can snap back.
            (room, .ok ⟨.TOKEN_MOVE,
              [("id", idv), ("x", .num token.x), ("y", .num token.y),
               ("rejected", .bool true), ("reason", .str "Not allowed")]⟩)
          else
            -- History snapshots only on explicit commit moves.
            let room := if truthy (pgetD p "commit" (.bool false)) then pushHistory room else room
            match toFloat (pgetD p "x" (.num token.x)) with
            | .error e => (room, .error e)
            | .ok xv =>
                let token := { token with x := xv }
                let room := { room with state :=
                  { room.state with tokens := setA room.state.tokens tkey token } }
                match toFloat (pgetD p "y" (.num token.y)) with
                | .error e => (room, .error e)
                | .ok yv =>
                    let token := { token with y := yv }
                    let room := { room with state :=
                      { room.state with tokens := setA room.state.tokens tkey token } }
                    -- room.state.tokens[token.id] = token
                    let room := { room with state :=
                      { room.state with tokens := setA room.state.tokens token.id token } }
                    (markDirty room, .ok ev)
  | .ROOM_SETTINGS =>
      -- GM-only
      if !(isGM room.state client_id) then
        (room, .ok (errEv "Only GM can change room settings"))
      else
        let room := pushHistory room
        let s := applySettings room.state p
        let room := markDirty { room with state := s }
        (room, .ok ⟨.ROOM_SETTINGS,
          [("allow_players_move", .bool s.allow_players_move),
           ("allow_all_move", .bool s.allow_all_move),
           ("lockdown", .bool s.lockdown),
           ("background_url", optStrJ s.background_url),
           ("layer_visibility", .obj (s.layer_visibility.map (fun kv => (kv.1, .bool kv.2))))]⟩)
  | .STROKE_ADD =>
      let sidv := pget p "id"
      let ptsv := pgetD p "points" (.arr [])
      let colorv := pgetD p "color" (.str "#ffffff")
      match toFloat (pgetD p "width" (.num 3)) with
      | .error e => (room, .error e)
      | .ok widthv =>
      let layer := toLayer (pgetD p "layer" (.str "draw"))
      if !(truthy sidv) || !(isArr ptsv) || (arrElems ptsv).length < 2 then
        (room, .ok (errEv "Invalid stroke"))
      else
        match buildPoints (arrElems ptsv) with
        | .error e => (room, .error e)
        | .ok pts =>
        let lockedv := truthy (pgetD p "locked" (.bool false))
        match asStr sidv, asStr colorv with
        | some sid, some col =>
            if pts.length < 2 then (room, .ok (errEv "Stroke too short"))
            else
              let stroke : Stroke :=
                { id := sid, points := pts, color := col, width := widthv,
                  locked := lockedv, layer := layer }
              let room := pushHistory room
              let st := appendOrderStrokes ({ room.state with strokes := setA room.state.strokes sid stroke }) sid
              let room := { room with state := st }
              let room := markDirty room
              (room, .ok ⟨.STROKE_ADD,
                [("id", .str sid), ("points", .arr (pts.map dumpPoint)),
                 ("color", .str col), ("width", .num widthv),
                 ("locked", .bool lockedv), ("layer", .str (layerName layer))]⟩)
        | _, _ => (room, .error "Stroke field validation failed")
  | .STROKE_DELETE =>
      if room.state.lockdown then (room, .ok (errEv "Lockdown is enabled"))
      else if !(isGM room.state client_id) then
        (room, .ok (errEv "Only GM can delete strokes"))
      else
        match strokeDeleteExisting room.state p with
        | .error e => (room, .error e)
        | .ok existing =>
          if existing.isEmpty then (room, .ok ⟨.STROKE_DELETE, [("ids", .arr [])]⟩)
          else
            let room := pushHistory room
            let st := removeStrokes room.state existing
            let room := markDirty { room with state := st }
            (room, .ok ⟨.STROKE_DELETE, [("ids", .arr (existing.map .str))]⟩)
  | .STROKE_SET_LOCK =>
      if !(isGM room.state client_id) then (room, .ok (errEv "Only GM can lock strokes"))
      else
        let sidv := pget p "id"
        match lookupJ room.state.strokes sidv with
        | .error e => (room, .error e)
        | .ok none => (room, .ok ⟨.ERROR, [("message", .str "Unknown stroke"), ("id", sidv)]⟩)
        | .ok (some (skey, stroke)) =>
            let room := pushHistory room
            let lk := truthy (pgetD p "locked" (.bool false))
            let stroke := { stroke with locked := lk }
            let room := markDirty { room with state :=
              { room.state with strokes := setA room.state.strokes skey stroke } }
            (room, .ok ⟨.STROKE_SET_LOCK, [("id", sidv), ("locked", .bool lk)]⟩)
  | .ERASE_AT =>
      if room.state.lockdown then (room, .ok (errEv "Lockdown is enabled"))
      -- Erasing is destructive, so GM-only.
      else if !(isGM room.state client_id) then (room, .ok (errEv "Only GM can erase"))
      else
        match toFloat (pgetD p "x" (.num 0)) with
        | .error e => (room, .error e)
        | .ok cx =>
        match toFloat (pgetD p "y" (.num 0)) with
        | .error e => (room, .error e)
        | .ok cy =>
        match toFloat (pgetD p "r" (.num ERASER_HIT_RADIUS_DEFAULT)) with
        | .error e => (room, .error e)
        | .ok r =>
        let eraseShapes := truthy (pgetD p "erase_shapes" (.bool false))
        let strokeIds := eraseHitStrokeIds room.state cx cy r
        let shapeIds := if eraseShapes then eraseHitShapeIds room.state cx cy r else []
        if strokeIds.isEmpty && shapeIds.isEmpty then
          (room, .ok ⟨.ERASE_AT, [("stroke_ids", .arr []), ("shape_ids", .arr [])]⟩)
        else
          let room := pushHistory room
          let st := removeShapes (removeStrokes room.state strokeIds) shapeIds
          let room := markDirty { room with state := st }
          (room, .ok ⟨.ERASE_AT,
            [("stroke_ids", .arr (strokeIds.map .str)),
             ("shape_ids", .arr (shapeIds.map .str))]⟩)
  | .SHAPE_ADD =>
      let sidv := pget p "id"
      let stypeOpt : Option ShapeType :=
        match pget p "type" with
        | .str "rect" => some .rect
        | .str "circle" => some .circle
        | .str "line" => some .line
        | _ => none
      match stypeOpt with
      | none => (room, .ok (errEv "Invalid shape type"))
      | some stype =>
        let layer := toLayer (pgetD p "layer" (.str "draw"))
        match toFloat (pgetD p "x1" (.num 0)) with
        | .error e => (room, .error e)
        | .ok x1 =>
        match toFloat (pgetD p "y1" (.num 0)) with
        | .error e => (room, .error e)
        | .ok y1 =>
        match toFloat (pgetD p "x2" (.num 0)) with
        | .error e => (room, .error e)
        | .ok x2 =>
        match toFloat (pgetD p "y2" (.num 0)) with
        | .error e => (room, .error e)
        | .ok y2 =>
        let colorv := pgetD p "color" (.str "#ffffff")
        match toFloat (pgetD p "width" (.num 3)) with
        | .error e => (room, .error e)
        | .ok widthv =>
        let fillv := truthy (pgetD p "fill" (.bool false))
        let lockedv := truthy (pgetD p "locked" (.bool false))
        match asStr sidv, asStr colorv with
        | some sid, some col =>
            let shape : Shape :=
              { id := sid, type := stype, x1 := x1, y1 := y1, x2 := x2, y2 := y2,
                color := col, width := widthv, fill := fillv, locked := lockedv,
                layer := layer }
            let room := pushHistory room
            let st := appendOrderShapes ({ room.state with shapes := setA room.state.shapes sid shape }) sid
            let room := { room with state := st }
            (markDirty room, .ok ⟨.SHAPE_ADD, dumpShapeFields shape⟩)
        | _, _ => (room, .error "Shape field validation failed")
  | .SHAPE_SET_LOCK =>
      -- GM only
      if !(isGM room.state client_id) then (room, .ok (errEv "Only GM can lock shapes"))
      else
        let sidv := pget p "id"
        match lookupJ room.state.shapes sidv with
        | .error e => (room, .error e)
        | .ok none => (room, .ok ⟨.ERROR, [("message", .str "Unknown shape"), ("id", sidv)]⟩)
        | .ok (some (skey, shape)) =>
            let room := pushHistory room
            let lk := truthy (pgetD p "locked" (.bool false))
            let shape := { shape with locked := lk }
            let room := markDirty { room with state :=
              { room.state with shapes := setA room.state.shapes skey shape } }
            (room, .ok ⟨.SHAPE_SET_LOCK, [("id", sidv), ("locked", .bool lk)]⟩)
  | .SHAPE_DELETE =>
      -- GM only
      if !(isGM room.state client_id) then (room, .ok (errEv "Only GM can delete shapes"))
      else
        let sidv := pget p "id"
        match lookupJ room.state.shapes sidv with
        | .error e => (room, .error e)
        | .ok (some (skey, _)) =>
            let room := pushHistory room
            let st := removeOrderShapes ({ room.state with shapes := eraseA room.state.shapes skey }) skey
            (markDirty { room with state := st }, .ok ⟨.SHAPE_DELETE, [("id", sidv)]⟩)
        | .ok none => (room, .ok ⟨.SHAPE_DELETE, [("id", sidv)]⟩)
  | .TOKEN_DELETE =>
      if room.state.lockdown then (room, .ok (errEv "Lockdown is enabled"))
      else
        let idv := pget p "id"
        match lookupJ room.state.tokens idv with
        | .error e => (room, .error e)
        | .ok none => (room, .ok ⟨.ERROR, [("message", .str "Unknown token"), ("id", idv)]⟩)
        | .ok (some (tkey, _)) =>
            -- only GM deletes
            if !(isGM room.state client_id) then
              (room, .ok ⟨.ERROR, [("message", .str "Only GM can delete tokens"), ("id", idv)]⟩)
            else
              let room := pushHistory room
              let room := markDirty { room with state :=
                { room.state with tokens := eraseA room.state.tokens tkey } }
              (room, .ok ev)
  | .TOKEN_ASSIGN =>
      -- GM assigns token to player
      let idv := pget p "id"
      let ownerv := pget p "owner_id"
      match lookupJ room.state.tokens idv with
      | .error e => (room, .error e)
      | .ok none => (room, .ok ⟨.ERROR, [("message", .str "Unknown token"), ("id", idv)]⟩)
      | .ok (some (tkey, token)) =>
          if !(isGM room.state client_id) then
            (room, .ok ⟨.ERROR, [("message", .str "Only GM can assign tokens"), ("id", idv)]⟩)
          else
            let room := pushHistory room
            -- the assignment is unvalidated; a non-string owner value is
            -- observationally equivalent to no owner in everything modelled
            let token := { token with owner_id := asStr ownerv }
            let room := { room with state :=
              { room.state with tokens := setA room.state.tokens tkey token } }
            let room := { room with state :=
              { room.state with tokens := setA room.state.tokens token.id token } }
            (markDirty room, .ok ev)
  | .TOKEN_SET_LOCK =>
      if !(isGM room.state client_id) then (room, .ok (errEv "Only GM can lock tokens"))
      else
        let idv := pget p "id"
        match lookupJ room.state.tokens idv with
        | .error e => (room, .error e)
        | .ok none => (room, .ok ⟨.ERROR, [("message", .str "Unknown token"), ("id", idv)]⟩)
        | .ok (some (tkey, token)) =>
            let room := pushHistory room
            let lk := truthy (pgetD p "locked" (.bool false))
            let token := { token with locked := lk }
            let room := markDirty { room with state :=
              { room.state with tokens := setA room.state.tokens tkey token } }
            (room, .ok ⟨.TOKEN_SET_LOCK, [("id", idv), ("locked", .bool lk)]⟩)
  | _ =>
      -- Unknown / not implemented
      (room, .ok (errEv ("Unhandled event type: " ++ ev.type.name)))

/-- The websocket dispatch decision of `app.ws_room` (src/server/app.py):
a reply is sent to the sender only when its type is `ERROR`; every other
reply is broadcast to all sockets of the room. -/
def sentToSenderOnly (out : WireEvent) : Bool :=
  out.type = .ERROR

/-! ## Specification-side definitions (from the claims' words, for comparison) -/

/-- The movement-permission cascade exactly as the specification words it:
"GM ⇒ true" with "a client is GM iff its session identity equals
`state.gm_id`", then lockdown, token lock, `allow_all_move`,
`allow_players_move` + ownership. -/
def claimCanMove (s : RoomState) (client_id : String) (token : Token) : Bool :=
  if s.gm_id = some client_id then true
  else if s.lockdown then false
  else if token.locked then false
  else if s.allow_all_move then true
  else if s.allow_players_move ∧ token.owner_id = some client_id then true
  else false

/-- The cascade with the GM test amended to what the code checks: the claimed
identity must also be non-empty (Python truthiness of `state.gm_id`). -/
def amendedCanMove (s : RoomState) (client_id : String) (token : Token) : Bool :=
  if s.gm_id = some client_id ∧ client_id ≠ "" then true
  else if s.lockdown then false
  else if token.locked then false
  else if s.allow_all_move then true
  else if s.allow_players_move ∧ token.owner_id = some client_id then true
  else false

/-- The cascade of `can_move_token` with the GM branch removed (what remains
available when no GM session is claimed). -/
def nonGmCascade (s : RoomState) (client_id : String) (token : Token) : Bool :=
  if s.lockdown then false
  else if token.locked then false
  else if s.allow_all_move then true
  else if s.allow_players_move ∧ token.owner_id = some client_id then true
  else false

/-- The reply classifiers used by statements about acceptance/rejection. -/
def isErrorReply : Except String WireEvent → Bool
  | .ok e => e.type = .ERROR
  | .error _ => false

/-- A reply is *accepted* (in C2's sense) when the call returned normally and
its type is not `ERROR`. -/
def acceptedReply : Except String WireEvent → Bool
  | .ok e => e.type ≠ .ERROR
  | .error _ => false

/-! ## Concrete fixtures used by counterexamples and witnesses -/

/-- A room state whose GM slot holds the empty string (a falsy value the GM
test rejects). -/
def emptyGmState : RoomState :=
  { room_id := "r", gm_id := some "", lockdown := true }

def plainToken : Token := { id := "t1", x := 0, y := 0 }

/-- A fresh room whose GM session is `"gm"`. -/
def gmState : RoomState := { room_id := "r", gm_id := some "gm" }

def gmRoom : Room := { state := gmState }

def undoEv : WireEvent := ⟨.UNDO, []⟩

/-- `TOKEN_CREATE{id, x:0, y:0}`. -/
def createEv (tid : String) : WireEvent :=
  ⟨.TOKEN_CREATE, [("id", .str tid), ("x", .num 0), ("y", .num 0)]⟩

/-- A token sitting at `(3, 4)`. -/
def tokenAt34 : Token := { id := "t1", x := 3, y := 4 }

/-- A room with GM `"gm"`, default permission flags, and one token `t1`. -/
def moveRoom : Room :=
  { state := { room_id := "r", gm_id := some "gm", tokens := [("t1", tokenAt34)] } }

/-- Player "bob" tries to move `t1` to `(5, 6)`. -/
def bobMoveEv : WireEvent :=
  ⟨.TOKEN_MOVE, [("id", .str "t1"), ("x", .num 5), ("y", .num 6)]⟩

/-- The authoritative rejecting echo the server builds for that move. -/
def rejectReply : WireEvent :=
  ⟨.TOKEN_MOVE, [("id", .str "t1"), ("x", .num 3), ("y", .num 4),
                 ("rejected", .bool true), ("reason", .str "Not allowed")]⟩

/-- A room in lockdown with GM `"gm"` and one token `t1`. -/
def lockdownRoom : Room :=
  { state := { room_id := "r", gm_id := some "gm", lockdown := true,
               tokens := [("t1", plainToken)] } }

/-- A room with no claimed GM session. -/
def noGmRoom : Room := { state := { room_id := "r" } }

/-- An unlocked stroke through `(0,0)` and `(100,0)`. -/
def stroke1 : Stroke := { id := "s1", points := [⟨0, 0⟩, ⟨100, 0⟩] }

/-- A locked stroke far away. -/
def stroke2 : Stroke := { id := "s2", points := [⟨500, 500⟩, ⟨600, 600⟩], locked := true }

/-- The eraser scene of spec scenario S4. -/
def eraseRoom : Room :=
  { state := { room_id := "r", gm_id := some "gm",
               strokes := [("s1", stroke1), ("s2", stroke2)],
               order_strokes := ["s1", "s2"] } }

/-- `ERASE_AT{x:0, y:0, r:20}` (no `erase_shapes`). -/
def eraseAtEv : WireEvent :=
  ⟨.ERASE_AT, [("x", .num 0), ("y", .num 0), ("r", .num 20)]⟩

/-- Three accepted GM token creations (versions 1, 2, 3) followed by two
accepted GM undos — the trace refuting monotonicity of `version`. -/
def c2r1 : Room := (applyEvent gmRoom (createEv "t1") "gm").1

def c2r2 : Room := (applyEvent c2r1 (createEv "t2") "gm").1

def c2r3 : Room := (applyEvent c2r2 (createEv "t3") "gm").1

def c2u1 : Room := (applyEvent c2r3 undoEv "gm").1

def c2u2 : Room := (applyEvent c2u1 undoEv "gm").1

/-! ## The draw-order invariant -/

/-- Invariant 1 of the spec's data model, plus the key uniqueness Python
dicts provide: `draw_order.strokes` is a permutation of `strokes.keys()`
(same for shapes). -/
def StateOk (s : RoomState) : Prop :=
  (keysA s.strokes).Nodup ∧ (keysA s.shapes).Nodup ∧
  s.order_strokes.Perm (keysA s.strokes) ∧ s.order_shapes.Perm (keysA s.shapes)

instance (s : RoomState) : Decidable (StateOk s) := by
  unfold StateOk
  infer_instance

/-- The invariant extended to the journal: every snapshot on the undo and
redo stacks also satisfies it (all of them are former states). -/
def RoomOk (room : Room) : Prop :=
  StateOk room.state ∧ (∀ s ∈ room.history, StateOk s) ∧ (∀ s ∈ room.future, StateOk s)

instance (room : Room) : Decidable (RoomOk room) := by
  unfold RoomOk
  infer_instance

/-! ## Material mutations and journal round trips -/

/-- `applySettings` only ever touches the permission flags, the background
url and the layer visibility: everything else is framed. -/
theorem applySettings_frame (s : RoomState) (p : List (String × JVal)) :
    (applySettings s p).version = s.version ∧
    (applySettings s p).gm_id = s.gm_id ∧
    (applySettings s p).tokens = s.tokens ∧
    (applySettings s p).strokes = s.strokes ∧
    (applySettings s p).shapes = s.shapes ∧
    (applySettings s p).order_strokes = s.order_strokes ∧
    (applySettings s p).order_shapes = s.order_shapes := by
  unfold applySettings
  split_ifs <;> (try split) <;> simp

theorem nodup_keys_eq {α : Type} {l : List (String × α)} (h : (keysA l).Nodup)
    {kv kv' : String × α} (h1 : kv ∈ l) (h2 : kv' ∈ l) (he : kv.1 = kv'.1) :
    kv = kv' := by
  induction l with
  | nil => cases h1
  | cons a t ih =>
      simp only [keysA, List.map_cons, List.nodup_cons] at h
      rcases List.mem_cons.mp h1 with rfl | h1t
      · rcases List.mem_cons.mp h2 with rfl | h2t
        · rfl
        · exact absurd (he ▸ List.mem_map_of_mem (fun kv => kv.1) h2t) h.1
      · rcases List.mem_cons.mp h2 with rfl | h2t
        · exact absurd (he ▸ List.mem_map_of_mem (fun kv => kv.1) h1t) h.1
        · exact ih h.2 h1t h2t

/-- With duplicate-free keys, a key occurs among the filtered keys iff its
(unique) entry passes the filter. -/
theorem mem_filter_keys_iff {α : Type} {l : List (String × α)} (h : (keysA l).Nodup)
    {P : (String × α) → Bool} {kv : String × α} (hm : kv ∈ l) :
    kv.1 ∈ (l.filter P).map (fun kv => kv.1) ↔ P kv = true := by
  constructor
  · intro hmem
    obtain ⟨kv', hkv', hkey⟩ := List.mem_map.mp hmem
    obtain ⟨hkv'l, hP⟩ := List.mem_filter.mp hkv'
    have : kv' = kv := nodup_keys_eq h hkv'l hm hkey
    exact this ▸ hP
  · intro hP
    exact List.mem_map_of_mem (fun kv => kv.1) (List.mem_filter.mpr ⟨hm, hP⟩)

/-- `removeStrokes` erases exactly the listed keys from the stroke dict and
the stroke order, and touches nothing else. -/
theorem removeStrokes_spec (st : RoomState) (ids : List String) :
    (removeStrokes st ids)
      = { st with strokes := st.strokes.filter (fun kv => decide (kv.1 ∉ ids)),
                  order_strokes := st.order_strokes.filter (fun x => decide (x ∉ ids)) } := by
  induction ids generalizing st with
  | nil =>
      simp [removeStrokes]
  | cons i t ih =>
      show removeStrokes (removeOrderStrokes _ i) t = _
      rw [ih]
      simp only [removeOrderStrokes, eraseA]
      congr 1 <;>
        (rw [List.filter_filter]; apply List.filter_congr; intro x hx; simp;
         exact Bool.and_comm _ _)

/-- `removeShapes` erases exactly the listed keys from the shape dict and the
shape order, and touches nothing else. -/
theorem removeShapes_spec (st : RoomState) (ids : List String) :
    (removeShapes st ids)
      = { st with shapes := st.shapes.filter (fun kv => decide (kv.1 ∉ ids)),
                  order_shapes := st.order_shapes.filter (fun x => decide (x ∉ ids)) } := by
  induction ids generalizing st with
  | nil =>
      simp [removeShapes]
  | cons i t ih =>
      show removeShapes (removeOrderShapes _ i) t = _
      rw [ih]
      simp only [removeOrderShapes, eraseA]
      congr 1 <;>
        (rw [List.filter_filter]; apply List.filter_congr; intro x hx; simp;
         exact Bool.and_comm _ _)

theorem lookupA_isSome_iff {α : Type} (l : List (String × α)) (k : String) :
    (lookupA l k).isSome = true ↔ k ∈ keysA l := by
  unfold lookupA keysA
  cases hf : l.find? (fun kv => kv.1 = k) with
  | none =>
      simp only [Option.isSome_none]
      constructor
      · intro hc
        cases hc
      · intro hmem
        obtain ⟨kv, hkv, hk⟩ := List.mem_map.mp hmem
        have := List.find?_eq_none.mp hf kv hkv
        simp [hk] at this
  | some kv =>
      simp only [Option.isSome_some, true_iff]
      have h1 := List.find?_some hf
      have h2 := List.mem_of_find?_eq_some hf
      simp only [decide_eq_true_eq] at h1
      exact h1 ▸ List.mem_map_of_mem (fun kv => kv.1) h2

theorem any_key_eq {α : Type} (l : List (String × α)) (k : String) :
    (l.any (fun kv => kv.1 = k)) = decide (k ∈ keysA l) := by
  by_cases h : k ∈ keysA l
  · rw [decide_eq_true h]
    obtain ⟨kv, hkv, hk⟩ := List.mem_map.mp h
    exact List.any_eq_true.mpr ⟨kv, hkv, by simp [hk]⟩
  · rw [decide_eq_false h]
    refine List.any_eq_false.mpr ?_
    intro kv hkv
    simp only [decide_eq_true_eq]
    intro hc
    exact h (hc ▸ List.mem_map_of_mem (fun kv => kv.1) hkv)

theorem keysA_setA {α : Type} (l : List (String × α)) (k : String) (v : α) :
    keysA (setA l k v) = if k ∈ keysA l then keysA l else keysA l ++ [k] := by
  unfold setA
  rw [any_key_eq]
  by_cases h : k ∈ keysA l
  · rw [decide_eq_true h, if_pos rfl, if_pos h]
    unfold keysA
    rw [List.map_map]
    apply List.map_congr_left
    intro kv _
    by_cases hk : kv.1 = k
    · simp [hk]
    · simp [hk]
  · rw [decide_eq_false h, if_neg (by simp), if_neg h]
    simp [keysA]

theorem keysA_filter_key {α : Type} (l : List (String × α)) (q : String → Bool) :
    keysA (l.filter (fun kv => q kv.1)) = (keysA l).filter q := by
  induction l with
  | nil => simp [keysA]
  | cons a t ih =>
      by_cases h : q a.1
      · simp [keysA, List.filter_cons, h] at ih ⊢
        exact ih
      · simp [keysA, List.filter_cons, h] at ih ⊢
        exact ih

theorem appendMissing_eq (acc keys : List String) (h : keys.Nodup) :
    appendMissing acc keys = acc ++ keys.filter (fun k => decide (k ∉ acc)) := by
  induction keys generalizing acc with
  | nil => simp [appendMissing]
  | cons k rest ih =>
      obtain ⟨hk, hrest⟩ := List.nodup_cons.mp h
      show appendMissing (if k ∈ acc then acc else acc ++ [k]) rest = _
      by_cases hmem : k ∈ acc
      · rw [if_pos hmem, ih acc hrest]
        simp [List.filter_cons, hmem]
      · rw [if_neg hmem, ih (acc ++ [k]) hrest]
        have hfk : (k :: rest).filter (fun x => decide (x ∉ acc))
            = k :: rest.filter (fun x => decide (x ∉ acc)) := by
          simp [List.filter_cons, hmem]
        rw [hfk, List.append_assoc, List.singleton_append]
        congr 2
        apply List.filter_congr
        intro x hx
        have hxk : x ≠ k := fun hc => hk (hc ▸ hx)
        simp [List.mem_append, hxk]

theorem append_filter_perm (acc keys : List String) (hkeys : keys.Nodup)
    (hacc : acc.Nodup) (hsub : ∀ x ∈ acc, x ∈ keys) :
    (acc ++ keys.filter (fun k => decide (k ∉ acc))).Perm keys := by
  apply List.perm_of_nodup_nodup_toFinset_eq
  · apply List.Nodup.append hacc (hkeys.filter _)
    intro x hx hxf
    have := (List.mem_filter.mp hxf).2
    simp at this
    exact this hx
  · exact hkeys
  · ext x
    simp only [List.toFinset_append, Finset.mem_union, List.mem_toFinset, List.mem_filter,
               decide_eq_true_eq]
    constructor
    · rintro (hx | hx)
      · exact hsub x hx
      · exact hx.1
    · intro hx
      by_cases hmem : x ∈ acc
      · exact Or.inl hmem
      · exact Or.inr ⟨hx, by simpa using hmem⟩

/-- On a state satisfying the draw-order invariant, `_normalize_order` is the
identity. -/
theorem normalizeOrder_eq_self (s : RoomState) (hok : StateOk s) : normalizeOrder s = s := by
  obtain ⟨hnds, hndp, hps, hpp⟩ := hok
  simp only [normalizeOrder]
  have hfs : s.order_strokes.filter (fun sid => (lookupA s.strokes sid).isSome)
      = s.order_strokes := by
    apply List.filter_eq_self.mpr
    intro x hx
    exact (lookupA_isSome_iff _ _).mpr (hps.mem_iff.mp hx)
  have hfp : s.order_shapes.filter (fun sid => (lookupA s.shapes sid).isSome)
      = s.order_shapes := by
    apply List.filter_eq_self.mpr
    intro x hx
    exact (lookupA_isSome_iff _ _).mpr (hpp.mem_iff.mp hx)
  rw [hfs, hfp, appendMissing_eq _ _ hnds, appendMissing_eq _ _ hndp]
  have hes : (keysA s.strokes).filter (fun k => decide (k ∉ s.order_strokes)) = [] := by
    apply List.filter_eq_nil_iff.mpr
    intro x hx
    simp [hps.mem_iff.mpr hx]
  have hep : (keysA s.shapes).filter (fun k => decide (k ∉ s.order_shapes)) = [] := by
    apply List.filter_eq_nil_iff.mpr
    intro x hx
    simp [hpp.mem_iff.mpr hx]
  rw [hes, hep]
  simp

/-- Filter-out-then-append puts `sid` on top while preserving the
permutation with the (unchanged) key set. -/
theorem perm_filter_append_singleton (l keys : List String) (sid : String)
    (h : l.Perm keys) (hnd : keys.Nodup) (hmem : sid ∈ keys) :
    (l.filter (fun x => x ≠ sid) ++ [sid]).Perm keys := by
  have h1 : (l.filter (fun x => x ≠ sid)).Perm (keys.filter (fun x => x ≠ sid)) :=
    h.filter _
  have h2 : keys.filter (fun x => x ≠ sid) = keys.erase sid := by
    rw [List.Nodup.erase_eq_filter hnd]
    apply List.filter_congr
    intro x _
    by_cases hx : x = sid <;> simp [hx, bne]
  have h1' : (l.filter (fun x => x ≠ sid)).Perm (keys.erase sid) := by
    rw [← h2]
    exact h1
  exact ((List.perm_append_singleton _ _).trans (h1'.cons sid)).trans
    (List.perm_cons_erase hmem).symm

theorem lookupJ_mem_keys {α : Type} {l : List (String × α)} {v : JVal} {k : String} {a : α}
    (h : lookupJ l v = .ok (some (k, a))) : k ∈ keysA l := by
  unfold lookupJ at h
  cases v with
  | str s =>
      simp only [Except.ok.injEq, Option.map_eq_some'] at h
      obtain ⟨b, hb, hba⟩ := h
      obtain ⟨rfl, _⟩ := Prod.mk.injEq .. ▸ hba
      exact (lookupA_isSome_iff l s).mp (by simp [hb])
  | null => cases h
  | bool b => cases h
  | num q => cases h
  | arr l' => cases h
  | obj l' => cases h

/-- A `dict.get` raise happens exactly on the unhashable payload values. -/
theorem lookupJ_error_unhashable {α : Type} {l : List (String × α)} {v : JVal} {e : String}
    (h : lookupJ l v = .error e) : hashableJ v = false := by
  cases v <;> simp_all [lookupJ, hashableJ]

/-- `_normalize_order` restores the draw-order invariant from duplicate-free
keys and duplicate-free order lists. -/
theorem stateOk_normalizeOrder (s : RoomState)
    (hnds : (keysA s.strokes).Nodup) (hndp : (keysA s.shapes).Nodup)
    (hords : s.order_strokes.Nodup) (hordp : s.order_shapes.Nodup) :
    StateOk (normalizeOrder s) := by
  refine ⟨hnds, hndp, ?_, ?_⟩
  · show (appendMissing (s.order_strokes.filter _) (keysA s.strokes)).Perm (keysA s.strokes)
    rw [appendMissing_eq _ _ hnds]
    apply append_filter_perm _ _ hnds (hords.filter _)
    intro x hx
    exact (lookupA_isSome_iff _ _).mp (List.mem_filter.mp hx).2
  · show (appendMissing (s.order_shapes.filter _) (keysA s.shapes)).Perm (keysA s.shapes)
    rw [appendMissing_eq _ _ hndp]
    apply append_filter_perm _ _ hndp (hordp.filter _)
    intro x hx
    exact (lookupA_isSome_iff _ _).mp (List.mem_filter.mp hx).2

/-- Inserting (or overwriting) a stroke and then `_append_order`ing its id
preserves the invariant. -/
theorem stateOk_insert_append_strokes (s : RoomState) (hok : StateOk s)
    (sid : String) (stroke : Stroke) :
    StateOk (appendOrderStrokes ({ s with strokes := setA s.strokes sid stroke }) sid) := by
  obtain ⟨hnds, hndp, hps, hpp⟩ := hok
  have hK' : keysA (setA s.strokes sid stroke)
      = if sid ∈ keysA s.strokes then keysA s.strokes else keysA s.strokes ++ [sid] :=
    keysA_setA _ _ _
  have hndK' : (keysA (setA s.strokes sid stroke)).Nodup := by
    rw [hK']
    by_cases hm : sid ∈ keysA s.strokes
    · simpa [hm] using hnds
    · simp only [hm, if_false]
      exact List.Nodup.append hnds (List.nodup_singleton sid)
        (by intro x hx hxs; simp at hxs; exact hm (hxs ▸ hx))
  have hmemK' : sid ∈ keysA (setA s.strokes sid stroke) := by
    rw [hK']
    by_cases hm : sid ∈ keysA s.strokes <;> simp [hm]
  have hnorm : StateOk (normalizeOrder { s with strokes := setA s.strokes sid stroke }) := by
    apply stateOk_normalizeOrder
    · exact hndK'
    · exact hndp
    · exact (hps.nodup_iff).mpr hnds
    · exact (hpp.nodup_iff).mpr hndp
  obtain ⟨hn1, hn2, hn3, hn4⟩ := hnorm
  exact ⟨hn1, hn2, perm_filter_append_singleton _ _ _ hn3 hn1 hmemK', hn4⟩

/-- Inserting (or overwriting) a shape and then `_append_order`ing its id
preserves the invariant. -/
theorem stateOk_insert_append_shapes (s : RoomState) (hok : StateOk s)
    (sid : String) (shape : Shape) :
    StateOk (appendOrderShapes ({ s with shapes := setA s.shapes sid shape }) sid) := by
  obtain ⟨hnds, hndp, hps, hpp⟩ := hok
  have hK' : keysA (setA s.shapes sid shape)
      = if sid ∈ keysA s.shapes then keysA s.shapes else keysA s.shapes ++ [sid] :=
    keysA_setA _ _ _
  have hndK' : (keysA (setA s.shapes sid shape)).Nodup := by
    rw [hK']
    by_cases hm : sid ∈ keysA s.shapes
    · simpa [hm] using hndp
    · simp only [hm, if_false]
      exact List.Nodup.append hndp (List.nodup_singleton sid)
        (by intro x hx hxs; simp at hxs; exact hm (hxs ▸ hx))
  have hmemK' : sid ∈ keysA (setA s.shapes sid shape) := by
    rw [hK']
    by_cases hm : sid ∈ keysA s.shapes <;> simp [hm]
  have hnorm : StateOk (normalizeOrder { s with shapes := setA s.shapes sid shape }) := by
    apply stateOk_normalizeOrder
    · exact hnds
    · exact hndK'
    · exact (hps.nodup_iff).mpr hnds
    · exact (hpp.nodup_iff).mpr hndp
  obtain ⟨hn1, hn2, hn3, hn4⟩ := hnorm
  exact ⟨hn1, hn2, hn3, perm_filter_append_singleton _ _ _ hn4 hn2 hmemK'⟩

theorem stateOk_removeStrokes (st : RoomState) (ids : List String) (hok : StateOk st) :
    StateOk (removeStrokes st ids) := by
  obtain ⟨hnds, hndp, hps, hpp⟩ := hok
  rw [removeStrokes_spec]
  refine ⟨?_, hndp, ?_, hpp⟩
  · dsimp only
    rw [keysA_filter_key st.strokes (fun k => decide (k ∉ ids))]
    exact hnds.filter _
  · dsimp only
    rw [keysA_filter_key st.strokes (fun k => decide (k ∉ ids))]
    exact hps.filter _

theorem stateOk_removeShapes (st : RoomState) (ids : List String) (hok : StateOk st) :
    StateOk (removeShapes st ids) := by
  obtain ⟨hnds, hndp, hps, hpp⟩ := hok
  rw [removeShapes_spec]
  refine ⟨hnds, ?_, hps, ?_⟩
  · dsimp only
    rw [keysA_filter_key st.shapes (fun k => decide (k ∉ ids))]
    exact hndp.filter _
  · dsimp only
    rw [keysA_filter_key st.shapes (fun k => decide (k ∉ ids))]
    exact hpp.filter _

/-- Overwriting the value under an existing key leaves the key list — and so
the invariant — untouched. -/
theorem stateOk_setA_existing_strokes (s : RoomState) (hok : StateOk s)
    (skey : String) (hmem : skey ∈ keysA s.strokes) (v : Stroke) :
    StateOk { s with strokes := setA s.strokes skey v } := by
  obtain ⟨hnds, hndp, hps, hpp⟩ := hok
  have h : keysA (setA s.strokes skey v) = keysA s.strokes := by
    rw [keysA_setA, if_pos hmem]
  exact ⟨h ▸ hnds, hndp, h ▸ hps, hpp⟩

theorem stateOk_setA_existing_shapes (s : RoomState) (hok : StateOk s)
    (skey : String) (hmem : skey ∈ keysA s.shapes) (v : Shape) :
    StateOk { s with shapes := setA s.shapes skey v } := by
  obtain ⟨hnds, hndp, hps, hpp⟩ := hok
  have h : keysA (setA s.shapes skey v) = keysA s.shapes := by
    rw [keysA_setA, if_pos hmem]
  exact ⟨hnds, h ▸ hndp, hps, h ▸ hpp⟩

theorem stateOk_applySettings (s : RoomState) (p : List (String × JVal))
    (hok : StateOk s) : StateOk (applySettings s p) := by
  obtain ⟨_, _, f4, f5, f6, f7⟩ := (applySettings_frame s p).2
  unfold StateOk at hok ⊢
  rw [f4, f5, f6, f7]
  exact hok

/-- A constructor-shaped introduction rule for `RoomOk`, convenient after
`markDirty`/`pushHistory` unfold to a record literal. -/
theorem roomOk_mk (st : RoomState) (h f : List RoomState) (d : Bool)
    (hs : StateOk st) (hh : ∀ s ∈ h, StateOk s) (hf : ∀ s ∈ f, StateOk s) :
    RoomOk ⟨st, h, f, d⟩ :=
  ⟨hs, hh, hf⟩

theorem stackOk_push (room : Room) (hok : RoomOk room) :
    ∀ s ∈ (pushHistory room).history, StateOk s := by
  intro s hs
  simp only [pushHistory] at hs
  split at hs
  · have := List.drop_subset _ _ hs
    rcases List.mem_append.mp this with h | h
    · exact hok.2.1 s h
    · simp at h
      exact h ▸ hok.1
  · rcases List.mem_append.mp hs with h | h
    · exact hok.2.1 s h
    · simp at h
      exact h ▸ hok.1

theorem roomOk_pushHistory (room : Room) (hok : RoomOk room) : RoomOk (pushHistory room) :=
  ⟨hok.1, stackOk_push room hok, by intro s hs; simp [pushHistory] at hs⟩

/-- Master preservation lemma: **every** call of `apply_event` — accepted,
rejected, erroring, or even raising — leaves a room satisfying the extended
draw-order invariant, provided it held before. -/
theorem roomOk_applyEvent (room : Room) (ev : WireEvent) (cid : String)
    (hok : RoomOk room) : RoomOk (applyEvent room ev cid).1 := by
  obtain ⟨t, p⟩ := ev
  cases t
  case UNDO =>
    simp only [applyEvent, WireEvent.payload]
    split
    · exact hok
    · split
      · exact hok
      · next prev heq =>
          have hprev : StateOk prev := hok.2.1 prev (List.mem_of_mem_getLast? heq)
          apply roomOk_mk
          · exact (normalizeOrder_eq_self prev hprev).symm ▸ hprev
          · intro s hs
            exact hok.2.1 s (List.dropLast_subset _ hs)
          · intro s hs
            rcases List.mem_append.mp hs with h | h
            · exact hok.2.2 s h
            · simp at h
              exact h ▸ hok.1
  case REDO =>
    simp only [applyEvent, WireEvent.payload]
    split
    · exact hok
    · split
      · exact hok
      · next nxt heq =>
          have hnxt : StateOk nxt := hok.2.2 nxt (List.mem_of_mem_getLast? heq)
          apply roomOk_mk
          · exact (normalizeOrder_eq_self nxt hnxt).symm ▸ hnxt
          · intro s hs
            rcases List.mem_append.mp hs with h | h
            · exact hok.2.1 s h
            · simp at h
              exact h ▸ hok.1
          · intro s hs
            exact hok.2.2 s (List.dropLast_subset _ hs)
  case STROKE_SET_LOCK =>
    simp only [applyEvent, WireEvent.payload]
    split
    · exact hok
    · split
      · exact hok
      · exact hok
      · next skey stroke heq =>
          apply roomOk_mk
          · exact stateOk_setA_existing_strokes _ hok.1 skey (lookupJ_mem_keys heq) _
          · exact stackOk_push room hok
          · intro s hs
            simp [pushHistory] at hs
  case SHAPE_SET_LOCK =>
    simp only [applyEvent, WireEvent.payload]
    split
    · exact hok
    · split
      · exact hok
      · exact hok
      · next skey shape heq =>
          apply roomOk_mk
          · exact stateOk_setA_existing_shapes _ hok.1 skey (lookupJ_mem_keys heq) _
          · exact stackOk_push room hok
          · intro s hs
            simp [pushHistory] at hs
  case SHAPE_DELETE =>
    simp only [applyEvent, WireEvent.payload]
    split
    · exact hok
    · split
      · exact hok
      · next skey a heq =>
          apply roomOk_mk
          · exact stateOk_removeShapes _ [skey] hok.1
          · exact stackOk_push room hok
          · intro s hs
            simp [pushHistory] at hs
      · exact hok
  all_goals (simp only [applyEvent, WireEvent.payload]; repeat' split)
  all_goals
    (first
      | exact hok
      | exact roomOk_pushHistory room hok
      | (apply roomOk_mk <;>
         first
           | exact hok.1
           | exact stateOk_applySettings _ _ hok.1
           | exact stateOk_insert_append_strokes _ hok.1 _ _
           | exact stateOk_insert_append_shapes _ hok.1 _ _
           | exact stateOk_removeShapes _ _ (stateOk_removeStrokes _ _ hok.1)
           | exact stateOk_removeStrokes _ _ hok.1
           | exact hok.2.1
           | exact hok.2.2
           | exact stackOk_push room hok
           | (intro s hs; simp [pushHistory] at hs)))

/-! # Claim C1 — the `can_move_token` cascade -/

/-- C1 as stated is refuted at `gm_id = some ""`, `client_id = ""`: the claim's
GM test (`client_id` equals `state.gm_id`) grants the move, but the code's
truthiness guard `room.state.gm_id and ...` makes the empty-string GM falsy,
falls through to the lockdown branch and denies it. -/
theorem canMove_claim_counterexample :
    canMoveToken emptyGmState "" plainToken = false ∧
    claimCanMove emptyGmState "" plainToken = true := by
  constructor <;> rfl

/-- C1 (amended): `can_move_token` implements the claimed cascade with the GM
branch tightened to "client_id equals state.gm_id **and is non-empty**"; the
remaining branches (lockdown, token lock, allow_all_move, allow_players_move
with ownership) are exactly as claimed, for every state, client and token. -/
theorem canMove_matches_amended_cascade (s : RoomState) (cid : String) (tok : Token) :
    canMoveToken s cid tok = amendedCanMove s cid tok := by
  unfold canMoveToken amendedCanMove isGM
  cases hg : s.gm_id with
  | none => simp
  | some g =>
      by_cases hge : g = ""
      · subst hge
        simp
        intro h1 h2
        exact absurd h1.symm h2
      · by_cases hc : cid = g
        · subst hc
          simp [hge]
        · simp [hge, hc]
          intro h1
          exact absurd h1.symm hc

/-! # Claim C6 — totality of `apply_event` over inbound events -/

/-- C6 is wrong about the code: `TOKEN_CREATE` with an empty payload (missing
`id`) does **not** produce an `ERROR` event — the `Token(...)` construction
raises a validation error out of the event boundary, and the room is left
mutated: the history snapshot pushed before the construction remains (and the
redo stack was cleared).  The spec's stated propagation policy ("the core
never raises across the event boundary") is the intent; this branch validates
nothing before `_push_history`. -/
theorem token_create_missing_id_raises :
    (applyEvent gmRoom ⟨.TOKEN_CREATE, []⟩ "bob").2
      = .error "Token field validation failed" ∧
    (applyEvent gmRoom ⟨.TOKEN_CREATE, []⟩ "bob").1.history = [gmState] := by
  constructor <;> rfl

/-! # Claim C5 — rejected `TOKEN_MOVE` echo -/

/-- C5's delivery clause is refuted: the rejecting echo has type `TOKEN_MOVE`,
and `app.ws_room` sends a reply to the sender alone only when its type is
`ERROR` — every other reply, the rejecting echo included, is broadcast to all
sockets of the room. -/
theorem token_move_reject_broadcast_counterexample :
    (applyEvent moveRoom bobMoveEv "bob").2 = .ok rejectReply ∧
    rejectReply.type ≠ .ERROR ∧
    sentToSenderOnly rejectReply = false := by
  refine ⟨rfl, ?_, rfl⟩
  decide

/-- C5 (amended): for a `TOKEN_MOVE` on an existing token that
`can_move_token` denies, the room is entirely unchanged and the reply is a
`TOKEN_MOVE` carrying `rejected: true` and the server's current x/y for the
token — but that reply is **broadcast** like any non-`ERROR` reply (only
`ERROR` replies are sender-only). -/
theorem token_move_rejected_authoritative_echo
    (room : Room) (cid : String) (ev : WireEvent) (tkey : String) (tok : Token)
    (ht : ev.type = .TOKEN_MOVE)
    (hl : lookupJ room.state.tokens (pget ev.payload "id") = .ok (some (tkey, tok)))
    (hm : canMoveToken room.state cid tok = false) :
    applyEvent room ev cid = (room, .ok ⟨.TOKEN_MOVE,
      [("id", pget ev.payload "id"), ("x", .num tok.x), ("y", .num tok.y),
       ("rejected", .bool true), ("reason", .str "Not allowed")]⟩) ∧
    sentToSenderOnly ⟨.TOKEN_MOVE,
      [("id", pget ev.payload "id"), ("x", .num tok.x), ("y", .num tok.y),
       ("rejected", .bool true), ("reason", .str "Not allowed")]⟩ = false := by
  obtain ⟨t, p⟩ := ev
  simp only [WireEvent.type] at ht
  subst ht
  refine ⟨?_, rfl⟩
  simp only [applyEvent, WireEvent.payload]
  rw [hl]
  simp [hm]

theorem token_move_rejected_authoritative_echo_witness :
    applyEvent moveRoom bobMoveEv "bob" = (moveRoom, .ok rejectReply) ∧
    sentToSenderOnly rejectReply = false :=
  token_move_rejected_authoritative_echo moveRoom "bob" bobMoveEv "t1" tokenAt34
    rfl rfl rfl

/-! # Claim C8 — lockdown semantics -/

/-- C8's GM clause is refuted: the `TOKEN_DELETE` branch checks `lockdown`
**before** the GM test, so under lockdown even the GM's delete of an existing
token is answered `ERROR "Lockdown is enabled"` and the token survives — the
room is untouched. -/
theorem gm_token_delete_lockdown_counterexample :
    (applyEvent lockdownRoom ⟨.TOKEN_DELETE, [("id", .str "t1")]⟩ "gm").2
      = .ok (errEv "Lockdown is enabled") ∧
    (applyEvent lockdownRoom ⟨.TOKEN_DELETE, [("id", .str "t1")]⟩ "gm").1
      = lockdownRoom := by
  constructor <;> rfl

/-- C8 (amended): under `lockdown = true`, `TOKEN_DELETE`, `STROKE_DELETE`
and `ERASE_AT` are rejected with `ERROR "Lockdown is enabled"` for **every**
client, the GM included, leaving the room unchanged; a non-GM `TOKEN_MOVE`
never mutates the room either (it is answered by the rejecting echo or an
unknown-token error). -/
theorem lockdown_blocks_destructive
    (room : Room) (ev : WireEvent) (cid : String)
    (hl : room.state.lockdown = true) :
    ((ev.type = .TOKEN_DELETE ∨ ev.type = .STROKE_DELETE ∨ ev.type = .ERASE_AT) →
        applyEvent room ev cid = (room, .ok (errEv "Lockdown is enabled"))) ∧
    (ev.type = .TOKEN_MOVE → isGM room.state cid = false →
        (applyEvent room ev cid).1 = room) := by
  obtain ⟨t, p⟩ := ev
  simp only [WireEvent.type]
  constructor
  · rintro (h | h | h) <;> subst h <;> simp [applyEvent, hl]
  · intro h hg
    subst h
    simp only [applyEvent, WireEvent.payload]
    cases hlk : lookupJ room.state.tokens (pget p "id") with
    | error e => simp
    | ok o =>
        cases o with
        | none => simp
        | some kv =>
            have hcm : canMoveToken room.state cid kv.2 = false := by
              simp [canMoveToken, hg, hl]
            simp [hcm]

theorem lockdown_blocks_destructive_witness :
    applyEvent lockdownRoom ⟨.TOKEN_DELETE, [("id", .str "t1")]⟩ "bob"
      = (lockdownRoom, .ok (errEv "Lockdown is enabled")) :=
  (lockdown_blocks_destructive lockdownRoom ⟨.TOKEN_DELETE, [("id", .str "t1")]⟩
    "bob" rfl).1 (Or.inl rfl)

/-! # Claim C10 — no GM session, no GM power -/

/-- C10 as stated is refuted: the `TOKEN_DELETE` branch evaluates
`room.state.tokens.get(token_id)` **before** its GM guard, so with
`gm_id = None` and an unhashable (list) payload id the lookup raises
`TypeError` out of `apply_event` — the reply is not an `ERROR` event (the
room is still unchanged, the raise preceding any mutation). -/
theorem no_gm_no_power_counterexample :
    noGmRoom.state.gm_id = none ∧
    applyEvent noGmRoom ⟨.TOKEN_DELETE, [("id", .arr [])]⟩ "bob"
      = (noGmRoom, .error "unhashable type: list") ∧
    isErrorReply (applyEvent noGmRoom ⟨.TOKEN_DELETE, [("id", .arr [])]⟩ "bob").2
      = false := by
  refine ⟨rfl, rfl, rfl⟩

/-- C10 (amended): with `gm_id = None` no client holds GM power — every
GM-only event (`UNDO`, `REDO`, `ROOM_SETTINGS`, `TOKEN_DELETE`,
`TOKEN_ASSIGN`, `TOKEN_SET_LOCK`, `STROKE_DELETE`, `STROKE_SET_LOCK`,
`SHAPE_DELETE`, `SHAPE_SET_LOCK`, `ERASE_AT`) leaves the room unchanged and
is never accepted, and `can_move_token` collapses to the cascade without its
GM branch.  The reply is an `ERROR` event, **except** that `TOKEN_DELETE`
(when not under lockdown) and `TOKEN_ASSIGN` call `tokens.get(id)` before
their GM guard, so an unhashable (list/dict) payload id makes them raise
`TypeError` instead; a raise happens only in those two branches and only for
an unhashable id, and with a hashable id every listed event replies `ERROR`. -/
theorem no_gm_no_power
    (room : Room) (ev : WireEvent) (cid : String)
    (hg : room.state.gm_id = none)
    (ht : ev.type = .UNDO ∨ ev.type = .REDO ∨ ev.type = .ROOM_SETTINGS ∨
          ev.type = .TOKEN_DELETE ∨ ev.type = .TOKEN_ASSIGN ∨
          ev.type = .TOKEN_SET_LOCK ∨ ev.type = .STROKE_DELETE ∨
          ev.type = .STROKE_SET_LOCK ∨ ev.type = .SHAPE_DELETE ∨
          ev.type = .SHAPE_SET_LOCK ∨ ev.type = .ERASE_AT) :
    ((applyEvent room ev cid).1 = room ∧
     acceptedReply (applyEvent room ev cid).2 = false ∧
     (∀ e, (applyEvent room ev cid).2 = .error e →
        hashableJ (pget ev.payload "id") = false ∧
        (ev.type = .TOKEN_DELETE ∨ ev.type = .TOKEN_ASSIGN)) ∧
     (hashableJ (pget ev.payload "id") = true →
        isErrorReply (applyEvent room ev cid).2 = true)) ∧
    ∀ tok, canMoveToken room.state cid tok = nonGmCascade room.state cid tok := by
  have hgm : isGM room.state cid = false := by simp [isGM, hg]
  constructor
  · obtain ⟨t, p⟩ := ev
    simp only [WireEvent.type, WireEvent.payload] at ht ⊢
    rcases ht with h|h|h|h|h|h|h|h|h|h|h <;> subst h <;>
        simp only [applyEvent, WireEvent.payload]
    -- UNDO / REDO / ROOM_SETTINGS: the GM guard is first
    · simp [hgm, isErrorReply, acceptedReply, errEv]
    · simp [hgm, isErrorReply, acceptedReply, errEv]
    · simp [hgm, isErrorReply, acceptedReply, errEv]
    -- TOKEN_DELETE: lockdown guard, then token lookup, then GM guard
    · by_cases hld : room.state.lockdown <;> simp only [hld]
      · simp [isErrorReply, acceptedReply, errEv]
      · cases hlk : lookupJ room.state.tokens (pget p "id") with
        | error e =>
            refine ⟨rfl, rfl, ?_, ?_⟩
            · intro e' _
              exact ⟨lookupJ_error_unhashable hlk, Or.inl trivial⟩
            · intro hh
              rw [lookupJ_error_unhashable hlk] at hh
              cases hh
        | ok o =>
            cases o with
            | none => simp [isErrorReply, acceptedReply]
            | some kv => simp [hgm, isErrorReply, acceptedReply]
    -- TOKEN_ASSIGN: token lookup, then GM guard
    · cases hlk : lookupJ room.state.tokens (pget p "id") with
      | error e =>
          refine ⟨rfl, rfl, ?_, ?_⟩
          · intro e' _
            exact ⟨lookupJ_error_unhashable hlk, Or.inr trivial⟩
          · intro hh
            rw [lookupJ_error_unhashable hlk] at hh
            cases hh
      | ok o =>
          cases o with
          | none => simp [isErrorReply, acceptedReply]
          | some kv => simp [hgm, isErrorReply, acceptedReply]
    -- TOKEN_SET_LOCK / STROKE_SET_LOCK: GM guard first
    · simp [hgm, isErrorReply, acceptedReply, errEv]
    -- STROKE_DELETE: lockdown guard, then GM guard
    · by_cases hld : room.state.lockdown <;>
        simp [hld, hgm, isErrorReply, acceptedReply, errEv]
    · simp [hgm, isErrorReply, acceptedReply, errEv]
    -- SHAPE_DELETE / SHAPE_SET_LOCK: GM guard first
    · simp [hgm, isErrorReply, acceptedReply, errEv]
    · simp [hgm, isErrorReply, acceptedReply, errEv]
    -- ERASE_AT: lockdown guard, then GM guard
    · by_cases hld : room.state.lockdown <;>
        simp [hld, hgm, isErrorReply, acceptedReply, errEv]
  · intro tok
    simp [canMoveToken, nonGmCascade, hgm]

theorem no_gm_no_power_witness :
    (applyEvent noGmRoom undoEv "bob").1 = noGmRoom ∧
    isErrorReply (applyEvent noGmRoom undoEv "bob").2 = true := by
  have h := no_gm_no_power noGmRoom undoEv "bob" rfl (Or.inl rfl)
  exact ⟨h.1.1, h.1.2.2.2 rfl⟩

/-! # Claim C9 — no-op deletes and erases leave the room untouched -/

/-- C9 as stated is refuted at an unhashable requested id: a GM
`SHAPE_DELETE` whose `id` is a list matches no existing shape (the dict keys
are strings), yet `apply_event` raises `TypeError` out of the
`sid in room.state.shapes` test instead of returning the `{id: ...}` echo;
likewise the GM `STROKE_DELETE` membership comprehension raises at a list
element of `ids`.  (The room is still left unchanged.) -/
theorem noop_destructive_counterexample :
    isGM gmRoom.state "gm" = true ∧
    applyEvent gmRoom ⟨.SHAPE_DELETE, [("id", .arr [])]⟩ "gm"
      = (gmRoom, .error "unhashable type: list") ∧
    applyEvent gmRoom ⟨.STROKE_DELETE, [("ids", .arr [.arr []])]⟩ "gm"
      = (gmRoom, .error "unhashable type: list") := by
  refine ⟨rfl, rfl, rfl⟩

/-- C9 (amended): a GM `STROKE_DELETE` whose membership walk completes and
matches no existing stroke, a GM `ERASE_AT` that hits nothing unlocked, and a
GM `SHAPE_DELETE` whose id lookup completes with no match each return a
non-`ERROR` echo (`{ids: []}`, `{stroke_ids: [], shape_ids: []}`,
`{id: <requested>}`) and leave the whole room — state, history, redo stack
and dirty bit — unchanged (the guards that let the matching happen, GM and no
lockdown where the branch checks it, are hypotheses; an unhashable list/dict
id makes the membership test itself raise `TypeError` instead, per the
counterexample). -/
theorem noop_destructive_is_pure_echo
    (room : Room) (cid : String) (p : List (String × JVal))
    (hgm : isGM room.state cid = true) :
    (room.state.lockdown = false → strokeDeleteExisting room.state p = .ok [] →
        applyEvent room ⟨.STROKE_DELETE, p⟩ cid
          = (room, .ok ⟨.STROKE_DELETE, [("ids", .arr [])]⟩)) ∧
    (∀ cx cy r : ℚ,
        room.state.lockdown = false →
        toFloat (pgetD p "x" (.num 0)) = .ok cx →
        toFloat (pgetD p "y" (.num 0)) = .ok cy →
        toFloat (pgetD p "r" (.num ERASER_HIT_RADIUS_DEFAULT)) = .ok r →
        eraseHitStrokeIds room.state cx cy r = [] →
        (truthy (pgetD p "erase_shapes" (.bool false)) = true →
            eraseHitShapeIds room.state cx cy r = []) →
        applyEvent room ⟨.ERASE_AT, p⟩ cid
          = (room, .ok ⟨.ERASE_AT, [("stroke_ids", .arr []), ("shape_ids", .arr [])]⟩)) ∧
    (lookupJ room.state.shapes (pget p "id") = .ok none →
        applyEvent room ⟨.SHAPE_DELETE, p⟩ cid
          = (room, .ok ⟨.SHAPE_DELETE, [("id", pget p "id")]⟩)) := by
  refine ⟨?_, ?_, ?_⟩
  · intro hld hex
    simp [applyEvent, hld, hgm, hex]
  · intro cx cy r hld hx hy hr hstroke hshape
    simp only [applyEvent, WireEvent.payload, hld, hgm, hx, hy, hr]
    by_cases hes : truthy (pgetD p "erase_shapes" (.bool false)) = true
    · simp [hes, hstroke, hshape hes]
    · simp at hes
      simp [hes, hstroke]
  · intro hlk
    simp [applyEvent, hgm, hlk]

theorem noop_destructive_is_pure_echo_witness :
    applyEvent gmRoom ⟨.STROKE_DELETE, []⟩ "gm"
      = (gmRoom, .ok ⟨.STROKE_DELETE, [("ids", .arr [])]⟩) ∧
    applyEvent gmRoom ⟨.ERASE_AT, []⟩ "gm"
      = (gmRoom, .ok ⟨.ERASE_AT, [("stroke_ids", .arr []), ("shape_ids", .arr [])]⟩) ∧
    applyEvent gmRoom ⟨.SHAPE_DELETE, []⟩ "gm"
      = (gmRoom, .ok ⟨.SHAPE_DELETE, [("id", JVal.null)]⟩) := by
  have h1 := noop_destructive_is_pure_echo gmRoom "gm" [] rfl
  have h2 := noop_destructive_is_pure_echo gmRoom "gm" [] rfl
  exact ⟨h1.1 rfl rfl,
         h2.2.1 0 0 18 rfl rfl rfl rfl rfl (by decide),
         h2.2.2 rfl⟩

/-! # Claim C7 — eraser correctness -/

/-- C7: a GM `ERASE_AT` with circle `(cx, cy, r)` removes exactly the unlocked
strokes with some point inside the disk (`_stroke_hits_circle`), removes
shapes only when the payload opts in with a truthy `erase_shapes`, using
`_shape_hits_circle`'s per-type tests, never removes anything locked, does not
touch tokens, and the reply payload lists exactly the removed ids in dict
order.  (The key-uniqueness hypotheses state what Python dicts guarantee by
construction.) -/
theorem erase_at_removes_exact_hits
    (room : Room) (cid : String) (p : List (String × JVal)) (cx cy r : ℚ)
    (hgm : isGM room.state cid = true)
    (hld : room.state.lockdown = false)
    (hx : toFloat (pgetD p "x" (.num 0)) = .ok cx)
    (hy : toFloat (pgetD p "y" (.num 0)) = .ok cy)
    (hr : toFloat (pgetD p "r" (.num ERASER_HIT_RADIUS_DEFAULT)) = .ok r)
    (hnds : (keysA room.state.strokes).Nodup)
    (hndp : (keysA room.state.shapes).Nodup) :
    (applyEvent room ⟨.ERASE_AT, p⟩ cid).2
      = .ok ⟨.ERASE_AT,
          [("stroke_ids", .arr ((eraseHitStrokeIds room.state cx cy r).map .str)),
           ("shape_ids", .arr ((if truthy (pgetD p "erase_shapes" (.bool false))
                                then eraseHitShapeIds room.state cx cy r
                                else []).map .str))]⟩ ∧
    (applyEvent room ⟨.ERASE_AT, p⟩ cid).1.state.strokes
      = room.state.strokes.filter
          (fun kv => !(!kv.2.locked && strokeHitsCircle kv.2 cx cy r)) ∧
    (applyEvent room ⟨.ERASE_AT, p⟩ cid).1.state.shapes
      = (if truthy (pgetD p "erase_shapes" (.bool false))
         then room.state.shapes.filter
                (fun kv => !(!kv.2.locked && shapeHitsCircle kv.2 cx cy r))
         else room.state.shapes) ∧
    (applyEvent room ⟨.ERASE_AT, p⟩ cid).1.state.tokens = room.state.tokens := by
  -- Element-level consequences of the hit lists, under key uniqueness.
  have elemS : ∀ kv ∈ room.state.strokes,
      (!decide (kv.1 ∈ eraseHitStrokeIds room.state cx cy r))
        = (kv.2.locked || !strokeHitsCircle kv.2 cx cy r) := by
    intro kv hkv
    have hmem := mem_filter_keys_iff (l := room.state.strokes) hnds
      (P := fun kv => !kv.2.locked && strokeHitsCircle kv.2 cx cy r) hkv
    by_cases hP : (!kv.2.locked && strokeHitsCircle kv.2 cx cy r) = true
    · have hin : kv.1 ∈ eraseHitStrokeIds room.state cx cy r := hmem.mpr hP
      rcases Bool.and_eq_true_iff.mp hP with ⟨hl', hh'⟩
      have hlf : kv.2.locked = false := by simpa using hl'
      simp [hin, hlf, hh']
    · have hout : kv.1 ∉ eraseHitStrokeIds room.state cx cy r := fun hc => hP (hmem.mp hc)
      cases hL : kv.2.locked <;> cases hH : strokeHitsCircle kv.2 cx cy r <;>
        simp [hL, hH] at hP ⊢ <;> simp [hout]
  have elemH : ∀ kv ∈ room.state.shapes,
      (!decide (kv.1 ∈ eraseHitShapeIds room.state cx cy r))
        = (kv.2.locked || !shapeHitsCircle kv.2 cx cy r) := by
    intro kv hkv
    have hmem := mem_filter_keys_iff (l := room.state.shapes) hndp
      (P := fun kv => !kv.2.locked && shapeHitsCircle kv.2 cx cy r) hkv
    by_cases hP : (!kv.2.locked && shapeHitsCircle kv.2 cx cy r) = true
    · have hin : kv.1 ∈ eraseHitShapeIds room.state cx cy r := hmem.mpr hP
      rcases Bool.and_eq_true_iff.mp hP with ⟨hl', hh'⟩
      have hlf : kv.2.locked = false := by simpa using hl'
      simp [hin, hlf, hh']
    · have hout : kv.1 ∉ eraseHitShapeIds room.state cx cy r := fun hc => hP (hmem.mp hc)
      cases hL : kv.2.locked <;> cases hH : shapeHitsCircle kv.2 cx cy r <;>
        simp [hL, hH] at hP ⊢ <;> simp [hout]
  have hA : room.state.strokes.filter
        (fun kv => !decide (kv.1 ∈ eraseHitStrokeIds room.state cx cy r))
      = room.state.strokes.filter (fun kv => kv.2.locked || !strokeHitsCircle kv.2 cx cy r) :=
    List.filter_congr elemS
  have hAsh : room.state.shapes.filter
        (fun kv => !decide (kv.1 ∈ eraseHitShapeIds room.state cx cy r))
      = room.state.shapes.filter (fun kv => kv.2.locked || !shapeHitsCircle kv.2 cx cy r) :=
    List.filter_congr elemH
  -- When the stroke hit list is empty, the filter keeps everything.
  have hBs : eraseHitStrokeIds room.state cx cy r = [] →
      room.state.strokes
        = room.state.strokes.filter (fun kv => kv.2.locked || !strokeHitsCircle kv.2 cx cy r) := by
    intro h1
    have : ∀ kv ∈ room.state.strokes, (kv.2.locked || !strokeHitsCircle kv.2 cx cy r) = true := by
      intro kv hkv
      have h := elemS kv hkv
      simp [h1] at h
      rcases h with h | h <;> simp [h]
    exact (List.filter_eq_self.mpr this).symm
  have hBh : eraseHitShapeIds room.state cx cy r = [] →
      room.state.shapes
        = room.state.shapes.filter (fun kv => kv.2.locked || !shapeHitsCircle kv.2 cx cy r) := by
    intro h2
    have : ∀ kv ∈ room.state.shapes, (kv.2.locked || !shapeHitsCircle kv.2 cx cy r) = true := by
      intro kv hkv
      have h := elemH kv hkv
      simp [h2] at h
      rcases h with h | h <;> simp [h]
    exact (List.filter_eq_self.mpr this).symm
  simp only [applyEvent, WireEvent.payload, hld, hgm, hx, hy, hr]
  by_cases hes : truthy (pgetD p "erase_shapes" (.bool false)) = true
  · by_cases hemp : ((eraseHitStrokeIds room.state cx cy r).isEmpty
        && (eraseHitShapeIds room.state cx cy r).isEmpty) = true
    · have h1 : eraseHitStrokeIds room.state cx cy r = [] :=
        List.isEmpty_iff.mp (Bool.and_eq_true_iff.mp hemp).1
      have h2 : eraseHitShapeIds room.state cx cy r = [] :=
        List.isEmpty_iff.mp (Bool.and_eq_true_iff.mp hemp).2
      simp [hes, hemp, h1, h2]
      exact ⟨hBs h1, hBh h2⟩
    · simp [hes, hemp, markDirty, pushHistory, removeShapes_spec, removeStrokes_spec]
      exact ⟨hA, hAsh⟩
  · simp only [Bool.not_eq_true] at hes
    by_cases hemp : (eraseHitStrokeIds room.state cx cy r).isEmpty = true
    · have h1 : eraseHitStrokeIds room.state cx cy r = [] := List.isEmpty_iff.mp hemp
      simp [hes, hemp, h1]
      exact hBs h1
    · simp [hes, hemp, markDirty, pushHistory, removeShapes_spec, removeStrokes_spec]
      exact hA

theorem erase_at_removes_exact_hits_witness :
    (applyEvent eraseRoom eraseAtEv "gm").2
      = .ok ⟨.ERASE_AT, [("stroke_ids", .arr [.str "s1"]), ("shape_ids", .arr [])]⟩ ∧
    (applyEvent eraseRoom eraseAtEv "gm").1.state.strokes = [("s2", stroke2)] := by
  have h := erase_at_removes_exact_hits eraseRoom "gm" eraseAtEv.payload 0 0 20
    rfl rfl rfl rfl rfl (by decide) (by decide)
  have he : (⟨.ERASE_AT, eraseAtEv.payload⟩ : WireEvent) = eraseAtEv := rfl
  rw [he] at h
  have hit1 : strokeHitsCircle stroke1 0 0 20 = true := by
    norm_num [strokeHitsCircle, stroke1]
  have hit2 : strokeHitsCircle stroke2 0 0 20 = false := by
    norm_num [strokeHitsCircle, stroke2]
  have es : eraseRoom.state.strokes = [("s1", stroke1), ("s2", stroke2)] := rfl
  have l1 : stroke1.locked = false := rfl
  have l2 : stroke2.locked = true := rfl
  have e1 : eraseHitStrokeIds eraseRoom.state 0 0 20 = ["s1"] := by
    simp [eraseHitStrokeIds, es, l1, l2, hit1, hit2]
  have e2 : truthy (pgetD eraseAtEv.payload "erase_shapes" (JVal.bool false)) = false := rfl
  have e3 : eraseRoom.state.strokes.filter
      (fun kv => !(!kv.2.locked && strokeHitsCircle kv.2 0 0 20)) = [("s2", stroke2)] := by
    rw [es]
    simp [l1, l2, hit1, hit2]
  constructor
  · rw [h.1]
    simp only [e1, e2, Bool.false_eq_true, if_false]
    rfl
  · exact h.2.1.trans e3

/-! # Claim C2 — version monotonicity -/

/-- C2 is refuted by undo: each of the three `TOKEN_CREATE`s and the two
`UNDO`s is accepted (non-`ERROR` reply), but `UNDO` restores the snapshot's
old `version` and `_mark_dirty` adds only 1: after versions 1, 2, 3 the first
undo yields version 3 again (not strictly greater) and the second undo yields
version 2 — a strict decrease across accepted events. -/
theorem version_monotonicity_counterexample :
    acceptedReply (applyEvent gmRoom (createEv "t1") "gm").2 = true ∧
    acceptedReply (applyEvent c2r1 (createEv "t2") "gm").2 = true ∧
    acceptedReply (applyEvent c2r2 (createEv "t3") "gm").2 = true ∧
    acceptedReply (applyEvent c2r3 undoEv "gm").2 = true ∧
    acceptedReply (applyEvent c2u1 undoEv "gm").2 = true ∧
    c2r3.state.version = 3 ∧
    c2u1.state.version = 3 ∧
    c2u2.state.version = 2 := by
  exact ⟨rfl, rfl, rfl, rfl, rfl, rfl, rfl, rfl⟩

/-- C2 (amended): an accepted event other than `UNDO`/`REDO` either leaves the
room record entirely unchanged (the rejecting `TOKEN_MOVE` echo and the no-op
`STROKE_DELETE`/`ERASE_AT`/`SHAPE_DELETE` echoes) or increments `version` by
exactly 1; `UNDO`/`REDO` instead set `version` to the restored snapshot's
version plus 1, which may equal or undercut the previous value. -/
theorem accepted_event_version_step
    (room room' : Room) (ev : WireEvent) (cid : String) (reply : WireEvent)
    (h : applyEvent room ev cid = (room', .ok reply))
    (he : reply.type ≠ .ERROR)
    (hu : ev.type ≠ .UNDO) (hr : ev.type ≠ .REDO) :
    room' = room ∨ room'.state.version = room.state.version + 1 := by
  obtain ⟨t, p⟩ := ev
  simp only [WireEvent.type] at hu hr
  cases t
  case UNDO => exact absurd rfl hu
  case REDO => exact absurd rfl hr
  all_goals simp only [applyEvent, WireEvent.payload] at h
  all_goals repeat' (split at h)
  all_goals
    (try simp only [Prod.mk.injEq] at h;
     obtain ⟨h1, h2⟩ := h;
     first
       | exact Except.noConfusion h2
       | (simp only [Except.ok.injEq] at h2;
          subst h1;
          subst h2;
          first
            | exact absurd rfl he
            | exact Or.inl rfl
            | (right;
               simp [markDirty, pushHistory, appendOrderStrokes, appendOrderShapes,
                     normalizeOrder, removeOrderStrokes, removeOrderShapes,
                     removeStrokes_spec, removeShapes_spec,
                     (applySettings_frame room.state p).1])))

theorem accepted_event_version_step_witness :
    acceptedReply (applyEvent gmRoom (createEv "t1") "gm").2 = true ∧
    (c2r1 = gmRoom ∨ c2r1.state.version = gmRoom.state.version + 1) := by
  refine ⟨rfl, ?_⟩
  exact accepted_event_version_step gmRoom c2r1 (createEv "t1") "gm" (createEv "t1")
    rfl (by decide) (by decide) (by decide)

/-! # Claim C4 — draw order is a permutation of the keys -/

/-- C4: starting from a room satisfying the draw-order invariant (with the
key-uniqueness Python dicts guarantee, and snapshots on the journal likewise
well-formed — true of any room built from a normalized state by the processor
itself), **any** event processed by `apply_event` preserves it; in particular,
after the event, `draw_order.strokes` is a permutation of `strokes.keys()`
and `draw_order.shapes` of `shapes.keys()`.  Since `RoomOk` is reproduced,
this extends over every sequence of events. -/
theorem draw_order_is_permutation
    (room : Room) (ev : WireEvent) (cid : String) (hok : RoomOk room) :
    RoomOk (applyEvent room ev cid).1 ∧
    ((applyEvent room ev cid).1.state.order_strokes).Perm
      (keysA (applyEvent room ev cid).1.state.strokes) ∧
    ((applyEvent room ev cid).1.state.order_shapes).Perm
      (keysA (applyEvent room ev cid).1.state.shapes) := by
  have h := roomOk_applyEvent room ev cid hok
  exact ⟨h, h.1.2.2.1, h.1.2.2.2⟩

theorem draw_order_is_permutation_witness :
    RoomOk gmRoom ∧ RoomOk (applyEvent gmRoom (createEv "t1") "gm").1 := by
  have hok : RoomOk gmRoom := by
    refine ⟨⟨?_, ?_, ?_, ?_⟩, ?_, ?_⟩ <;> simp [gmRoom, gmState, keysA, StateOk]
  exact ⟨hok, (draw_order_is_permutation gmRoom (createEv "t1") "gm" hok).1⟩

/-! ## Journal round-trip lemmas -/

theorem sqrt_le_add_of_sq_le {x : ℝ} {y : ℝ} (hy : 0 ≤ y) (h : x ≤ y ^ 2) :
    Real.sqrt x ≤ y := by
  calc Real.sqrt x ≤ Real.sqrt (y ^ 2) := Real.sqrt_le_sqrt h
    _ = y := Real.sqrt_sq hy

/-- `sqrtLeSqrtAdd` decides the real comparison `√d2 ≤ √R2 + c` exactly: the
embedded `circle` hit test agrees with the floating `math.hypot` comparison
read as exact real arithmetic. -/
theorem sqrtLeSqrtAdd_iff (d2 R2 c : ℚ) (hd : 0 ≤ d2) (hR : 0 ≤ R2) :
    sqrtLeSqrtAdd d2 R2 c = true ↔
      Real.sqrt (d2 : ℝ) ≤ Real.sqrt (R2 : ℝ) + (c : ℝ) := by
  have hdR : (0:ℝ) ≤ (d2:ℝ) := by exact_mod_cast hd
  have hRR : (0:ℝ) ≤ (R2:ℝ) := by exact_mod_cast hR
  set a := Real.sqrt (d2:ℝ) with hadef
  set b := Real.sqrt (R2:ℝ) with hbdef
  have ha : 0 ≤ a := Real.sqrt_nonneg _
  have hb : 0 ≤ b := Real.sqrt_nonneg _
  have ha2 : a ^ 2 = (d2:ℝ) := Real.sq_sqrt hdR
  have hb2 : b ^ 2 = (R2:ℝ) := Real.sq_sqrt hRR
  unfold sqrtLeSqrtAdd
  by_cases hc : 0 ≤ c
  · have hcR : (0:ℝ) ≤ (c:ℝ) := by exact_mod_cast hc
    rw [if_pos hc]
    by_cases h1 : d2 - R2 - c * c ≤ 0
    · rw [if_pos h1]
      simp only [true_iff]
      have h1R : (d2:ℝ) - R2 - c * c ≤ 0 := by exact_mod_cast h1
      apply sqrt_le_add_of_sq_le (by positivity)
      nlinarith [mul_nonneg hb hcR]
    · rw [if_neg h1]
      have h1R : (0:ℝ) < (d2:ℝ) - R2 - c * c := by
        have : (0:ℚ) < d2 - R2 - c * c := lt_of_not_ge h1
        exact_mod_cast this
      rw [decide_eq_true_eq]
      constructor
      · intro hQ
        have hQR : ((d2:ℝ) - R2 - c * c) * ((d2:ℝ) - R2 - c * c)
            ≤ 4 * ((c:ℝ) * c) * R2 := by exact_mod_cast hQ
        have hcb : (d2:ℝ) - R2 - c * c ≤ 2 * c * b := by
          nlinarith [mul_nonneg (mul_nonneg (by norm_num : (0:ℝ) ≤ 2) hcR) hb]
        apply sqrt_le_add_of_sq_le (by positivity)
        nlinarith
      · intro hab
        have hcb : (d2:ℝ) - R2 - c * c ≤ 2 * c * b := by
          nlinarith [sq_nonneg (a - b - c)]
        have h2cb : (0:ℝ) ≤ 2 * c * b := by positivity
        have : ((d2:ℝ) - R2 - c * c) * ((d2:ℝ) - R2 - c * c)
            ≤ 4 * ((c:ℝ) * c) * R2 := by nlinarith
        exact_mod_cast this
  · have hcR : (c:ℝ) < 0 := by
      have : c < 0 := lt_of_not_ge hc
      exact_mod_cast this
    rw [if_neg hc]
    by_cases h2 : R2 - d2 - c * c < 0
    · rw [if_pos h2]
      simp only [Bool.false_eq_true, false_iff, not_le]
      have h2R : (R2:ℝ) - d2 - c * c < 0 := by exact_mod_cast h2
      by_contra hcon
      push_neg at hcon
      have hac : 0 ≤ a - c := by nlinarith
      have : (a - c) ^ 2 ≤ b ^ 2 := by nlinarith
      nlinarith [mul_nonneg ha (neg_nonneg.mpr hcR.le)]
    · rw [if_neg h2]
      have h2R : (0:ℝ) ≤ (R2:ℝ) - d2 - c * c := by
        have : (0:ℚ) ≤ R2 - d2 - c * c := le_of_not_lt h2
        exact_mod_cast this
      rw [decide_eq_true_eq]
      have haa : a * a = (d2:ℝ) := by rw [← ha2]; ring
      have hbb : b * b = (R2:ℝ) := by rw [← hb2]; ring
      have hac : 0 ≤ a - c := by linarith
      have h2ca : (0:ℝ) ≤ 2 * (-(c:ℝ)) * a :=
        mul_nonneg (mul_nonneg (by norm_num) (by linarith)) ha
      have hsq : (2 * (-(c:ℝ)) * a) * (2 * (-(c:ℝ)) * a) = 4 * ((c:ℝ) * c) * (d2:ℝ) := by
        rw [← haa]
        ring
      constructor
      · intro hQ
        have hQR : 4 * ((c:ℝ) * c) * d2
            ≤ ((R2:ℝ) - d2 - c * c) * ((R2:ℝ) - d2 - c * c) := by exact_mod_cast hQ
        have hca : 2 * (-(c:ℝ)) * a ≤ (R2:ℝ) - d2 - c * c := by
          by_contra hcon
          push_neg at hcon
          have hlt := mul_self_lt_mul_self h2R hcon
          rw [hsq] at hlt
          linarith
        have hble : (a - c) * (a - c) ≤ b * b := by nlinarith [haa, hbb, hca]
        have : a - c ≤ b := by
          by_contra hcon
          push_neg at hcon
          have := mul_self_lt_mul_self hb hcon
          linarith
        linarith
      · intro hab
        have h1 : a - c ≤ b := by linarith
        have hsq1 : (a - c) * (a - c) ≤ b * b := mul_self_le_mul_self hac h1
        have hca : 2 * (-(c:ℝ)) * a ≤ (R2:ℝ) - d2 - c * c := by
          nlinarith [hsq1, haa, hbb]
        have hsq2 := mul_self_le_mul_self h2ca hca
        rw [hsq] at hsq2
        exact_mod_cast hsq2

end WarBoard
